import Mathlib

/-!
# GoVault — verification of the Stratum mining components

A shallow embedding of the GoVault solo/proxy mining pool's core algorithms:

* `internal/node/blocktemplate.go` — double-SHA256, Stratum merkle branches,
  merkle-root recomputation (`MerkleBranchesForStratum`, `ComputeMerkleRoot`);
* `internal/stratum/session.go` — the per-connection session state machine
  (`handleSubscribe`/`handleAuthorize`/`handleSubmit`), share validation
  (`ValidateShare`), block-header reconstruction (`buildBlockHeader`);
* the vardiff retarget controller (`VardiffManager.CheckRetarget`);
* `internal/stratum/jobs.go` — the bounded job table
  (`CreateJob` / `RegisterUpstreamJob` insertion and trimming);
* `internal/upstream/client.go` — extranonce2 space splitting in `subscribe`.

Modelling conventions:

* Go byte slices are `List Nat` with each element `< 256` by construction.
* Go `uint32` arithmetic is `Nat` arithmetic reduced `% 2^32` where overflow
  can occur.
* Go `float64` difficulty arithmetic is modelled by exact rationals `ℚ`; the
  claims proved about it concern the algebraic structure of the computation
  (divisions by two, clamps, damping averages), not IEEE rounding.
* Wall-clock reads (`time.Now`, `time.Since`) become an explicit `now`
  parameter threaded through the state.
* I/O (sockets, logging, JSON framing, node RPC) is outside the embedding;
  handlers take already-extracted parameters and return the reply that would
  be serialised, plus the updated state and which callbacks fired.
-/

namespace GoVault

/-! ## Bytes and hex (Go `encoding/hex` semantics) -/

/-- Value of one hex digit, as Go's `fromHexChar`: `0-9`, `a-f`, `A-F`. -/
def hexDigitVal? (c : Char) : Option Nat :=
  if '0' ≤ c ∧ c ≤ '9' then some (c.toNat - '0'.toNat)
  else if 'a' ≤ c ∧ c ≤ 'f' then some (c.toNat - 'a'.toNat + 10)
  else if 'A' ≤ c ∧ c ≤ 'F' then some (c.toNat - 'A'.toNat + 10)
  else none

/-- Go `hex.DecodeString` on a char list: decode hex pairs left to right,
returning the bytes decoded before the first problem and whether the whole
string decoded cleanly.  A trailing lone digit or an invalid character stops
the decode with the bytes produced so far (Go returns those bytes together
with a non-nil error). -/
def hexDecodeChars : List Char → List Nat × Bool
  | [] => ([], true)
  | [_] => ([], false)
  | c1 :: c2 :: rest =>
    match hexDigitVal? c1, hexDigitVal? c2 with
    | some a, some b => ((16 * a + b) :: (hexDecodeChars rest).1, (hexDecodeChars rest).2)
    | _, _ => ([], false)

/-- Go `hex.DecodeString`: the decoded bytes (possibly a strict prefix) and
an ok flag (`true` iff Go returns a nil error). -/
def hexDecodeGo (s : String) : List Nat × Bool :=
  hexDecodeChars s.data

/-- The call sites that check the error: `some bytes` iff the decode is clean. -/
def hexDecode? (s : String) : Option (List Nat) :=
  let r := hexDecodeGo s
  if r.2 then some r.1 else none

/-- Lowercase hex digit for a value `< 16` (Go `hex.EncodeToString` digits). -/
def hexDigitChar (n : Nat) : Char :=
  if n < 10 then Char.ofNat ('0'.toNat + n)
  else Char.ofNat ('a'.toNat + (n - 10))

/-- Go `hex.EncodeToString`: two lowercase digits per byte. -/
def hexEncodeChars : List Nat → List Char
  | [] => []
  | b :: rest => hexDigitChar (b / 16) :: hexDigitChar (b % 16) :: hexEncodeChars rest

/-- Go `hex.EncodeToString` producing a `String`. -/
def hexEncode (bs : List Nat) : String :=
  ⟨hexEncodeChars bs⟩

/-- A byte list in range: every element below 256. -/
def BytesOk (bs : List Nat) : Prop := ∀ b ∈ bs, b < 256

instance : DecidablePred BytesOk := fun bs =>
  inferInstanceAs (Decidable (∀ b ∈ bs, b < 256))

theorem hexDigitVal?_hexDigitChar (d : Nat) (h : d < 16) :
    hexDigitVal? (hexDigitChar d) = some d := by
  interval_cases d <;> decide

/-- Decoding inverts encoding on in-range byte lists. -/
theorem hexDecodeChars_hexEncodeChars (bs : List Nat) (h : BytesOk bs) :
    hexDecodeChars (hexEncodeChars bs) = (bs, true) := by
  induction bs with
  | nil => simp [hexEncodeChars, hexDecodeChars]
  | cons b rest ih =>
    have hb : b < 256 := h b (List.mem_cons_self _ _)
    have hrest : BytesOk rest := fun x hx => h x (List.mem_cons_of_mem _ hx)
    have h1 := hexDigitVal?_hexDigitChar (b / 16) (by omega)
    have h2 := hexDigitVal?_hexDigitChar (b % 16) (Nat.mod_lt _ (by norm_num))
    have hb' : 16 * (b / 16) + b % 16 = b := Nat.div_add_mod b 16
    simp only [hexEncodeChars, hexDecodeChars, h1, h2, ih hrest, hb']

theorem hexDecodeGo_hexEncode (bs : List Nat) (h : BytesOk bs) :
    hexDecodeGo (hexEncode bs) = (bs, true) := by
  simpa [hexDecodeGo, hexEncode] using hexDecodeChars_hexEncodeChars bs h

/-! ## SHA-256 (Go `crypto/sha256` as used by `DoubleSHA256`)

A byte-level FIPS 180-4 SHA-256 over `List Nat`.  32-bit words are `Nat`
reduced `% 2^32` after every addition; rotations and shifts are the usual
bit operations. -/

/-- 2^32, the modulus for 32-bit word arithmetic. -/
def w32 : Nat := 4294967296

/-- Rotate a 32-bit word right by `n` (0 < n < 32). -/
def rotr32 (n x : Nat) : Nat :=
  ((x >>> n) ||| (x <<< (32 - n))) % w32

/-- Big-endian bytes of `x`, `n` bytes wide. -/
def beBytes (n x : Nat) : List Nat :=
  (List.range n).map fun i => (x >>> (8 * (n - 1 - i))) % 256

/-- Go `binary.BigEndian.Uint32`: first four bytes, big-endian.  (Go panics
below four bytes; the callers in this embedding guard the length first.) -/
def beUint32 : List Nat → Nat
  | b0 :: b1 :: b2 :: b3 :: _ => ((b0 <<< 24) ||| (b1 <<< 16) ||| (b2 <<< 8) ||| b3) % w32
  | _ => 0

/-- Go `binary.LittleEndian.PutUint32`: the four little-endian bytes of a word. -/
def leBytes4 (x : Nat) : List Nat :=
  [x % 256, (x >>> 8) % 256, (x >>> 16) % 256, (x >>> 24) % 256]

/-- The SHA-256 round constants (FIPS 180-4, written in decimal). -/
def sha256K : List Nat :=
  [1116352408, 1899447441, 3049323471, 3921009573, 961987163, 1508970993,
   2453635748, 2870763221, 3624381080, 310598401, 607225278, 1426881987,
   1925078388, 2162078206, 2614888103, 3248222580, 3835390401, 4022224774,
   264347078, 604807628, 770255983, 1249150122, 1555081692, 1996064986,
   2554220882, 2821834349, 2952996808, 3210313671, 3336571891, 3584528711,
   113926993, 338241895, 666307205, 773529912, 1294757372, 1396182291,
   1695183700, 1986661051, 2177026350, 2456956037, 2730485921, 2820302411,
   3259730800, 3345764771, 3516065817, 3600352804, 4094571909, 275423344,
   430227734, 506948616, 659060556, 883997877, 958139571, 1322822218,
   1537002063, 1747873779, 1955562222, 2024104815, 2227730452, 2361852424,
   2428436474, 2756734187, 3204031479, 3329325298]

/-- The SHA-256 initial hash state (FIPS 180-4, written in decimal). -/
def sha256H0 : List Nat :=
  [1779033703, 3144134277, 1013904242, 2773480762,
   1359893119, 2600822924, 528734635, 1541459225]

/-- Message padding: `0x80`, zeros to 56 mod 64, then the bit length as eight
big-endian bytes. -/
def sha256Pad (msg : List Nat) : List Nat :=
  msg ++ [0x80] ++ List.replicate ((119 - msg.length % 64) % 64) 0 ++ beBytes 8 (msg.length * 8)

/-- Split a padded message into 64-byte blocks (`fuel` bounds the recursion;
callers pass the list length, which always suffices). -/
def toBlocksAux : Nat → List Nat → List (List Nat)
  | 0, _ => []
  | _ + 1, [] => []
  | fuel + 1, l => l.take 64 :: toBlocksAux fuel (l.drop 64)

def toBlocks (l : List Nat) : List (List Nat) := toBlocksAux l.length l

/-- The first 16 message-schedule words of a block, big-endian. -/
def words16 : List Nat → List Nat
  | b0 :: b1 :: b2 :: b3 :: rest => beUint32 [b0, b1, b2, b3] :: words16 rest
  | _ => []

/-- Extend 16 schedule words to 64. -/
def sha256Schedule (w : List Nat) : List Nat :=
  (List.range 48).foldl
    (fun acc _ =>
      let n := acc.length
      let x15 := acc.getD (n - 15) 0
      let x2 := acc.getD (n - 2) 0
      let s0 := rotr32 7 x15 ^^^ rotr32 18 x15 ^^^ (x15 >>> 3)
      let s1 := rotr32 17 x2 ^^^ rotr32 19 x2 ^^^ (x2 >>> 10)
      acc ++ [(acc.getD (n - 16) 0 + s0 + acc.getD (n - 7) 0 + s1) % w32])
    w

/-- One SHA-256 compression round. -/
def sha256Round (st : List Nat) (kw : Nat × Nat) : List Nat :=
  match st with
  | [a, b, c, d, e, f, g, h] =>
    let s1 := rotr32 6 e ^^^ rotr32 11 e ^^^ rotr32 25 e
    let ch := (e &&& f) ^^^ ((w32 - 1 - e) &&& g)
    let t1 := (h + s1 + ch + kw.1 + kw.2) % w32
    let s0 := rotr32 2 a ^^^ rotr32 13 a ^^^ rotr32 22 a
    let mj := (a &&& b) ^^^ (a &&& c) ^^^ (b &&& c)
    let t2 := (s0 + mj) % w32
    [(t1 + t2) % w32, a, b, c, (d + t1) % w32, e, f, g]
  | other => other

/-- Compress one 64-byte block into the running hash state. -/
def sha256Block (hstate : List Nat) (block : List Nat) : List Nat :=
  let ws := sha256Schedule (words16 block)
  let st := (sha256K.zip ws).foldl sha256Round hstate
  (hstate.zip st).map fun p => (p.1 + p.2) % w32

/-- SHA-256 of a byte list. -/
def sha256 (msg : List Nat) : List Nat :=
  ((toBlocks (sha256Pad msg)).foldl sha256Block sha256H0).flatMap (beBytes 4)

/-- `node.DoubleSHA256`: SHA-256 applied twice. -/
def DoubleSHA256 (msg : List Nat) : List Nat :=
  sha256 (sha256 msg)

/-- FIPS 180-4 test vector: SHA-256 of the empty message. -/
example :
    sha256 [] =
      (hexDecodeGo "e3b0c44298fc1c149afbf4c8996fb92427ae41e4649b934ca495991b7852b855").1 := by
  decide

/-- FIPS 180-4 test vector: SHA-256 of `"abc"`. -/
example :
    sha256 [0x61, 0x62, 0x63] =
      (hexDecodeGo "ba7816bf8f01cfea414140de5dae2223b00361a396177a9cb410ff61f20015ad").1 := by
  decide

/-! ## Merkle branches and root (`internal/node/blocktemplate.go`) -/

/-- One reduction level: pair adjacent hashes with `DoubleSHA256 (left ++ right)`,
duplicating the last element when the count is odd (the inner `for` loop of
`MerkleBranchesForStratum`). -/
def merkleReduceLevel : List (List Nat) → List (List Nat)
  | [] => []
  | [l] => [DoubleSHA256 (l ++ l)]
  | l :: r :: rest => DoubleSHA256 (l ++ r) :: merkleReduceLevel rest

/-- The `for len(level) > 0` loop of `MerkleBranchesForStratum`: emit the first
element of each level as the next branch, then reduce the remaining elements.
`fuel` bounds the recursion; the wrapper passes the list length, which always
suffices (each level is strictly shorter than the last). -/
def merkleBranchesAux : Nat → List (List Nat) → List (List Nat)
  | _, [] => []
  | _, [x] => [x]
  | 0, x :: _ => [x]
  | fuel + 1, x :: rest => x :: merkleBranchesAux fuel (merkleReduceLevel rest)

/-- `node.MerkleBranchesForStratum`: the merkle branches for the coinbase path,
given the transaction hashes (coinbase not included), internal byte order. -/
def MerkleBranchesForStratum (txHashes : List (List Nat)) : List (List Nat) :=
  merkleBranchesAux txHashes.length txHashes

/-- `node.ComputeMerkleRoot`: fold the hex-decoded branches into the coinbase
hash with `DoubleSHA256 (current ++ branch)`.  Go ignores the hex decode error
and uses whatever bytes decoded. -/
def ComputeMerkleRoot (coinbaseHash : List Nat) (branches : List String) : List Nat :=
  branches.foldl (fun current branchHex => DoubleSHA256 (current ++ (hexDecodeGo branchHex).1))
    coinbaseHash

/-- Modelled from the claim's description of the full merkle tree: reduce the
leaf level with `merkleReduceLevel` until one element remains (`fuel` bounds
the recursion; the wrapper passes the leaf count). -/
def merkleRootAux : Nat → List (List Nat) → List Nat
  | _, [] => []
  | _, [x] => x
  | 0, x :: _ => x
  | fuel + 1, level => merkleRootAux fuel (merkleReduceLevel level)

/-- Modelled from the claim: the root of the full merkle tree over a leaf list,
pairing adjacent elements with double-SHA256 and duplicating the last when odd. -/
def merkleRootFull (leaves : List (List Nat)) : List Nat :=
  merkleRootAux leaves.length leaves

theorem merkleReduceLevel_length :
    ∀ l : List (List Nat), (merkleReduceLevel l).length = (l.length + 1) / 2
  | [] => by simp [merkleReduceLevel]
  | [_] => by simp [merkleReduceLevel]
  | _ :: _ :: rest => by
    have ih := merkleReduceLevel_length rest
    simp [merkleReduceLevel, ih]
    omega

theorem bytesOk_beBytes (n x : Nat) : BytesOk (beBytes n x) := by
  intro b hb
  simp only [beBytes, List.mem_map, List.mem_range] at hb
  obtain ⟨i, _, rfl⟩ := hb
  exact Nat.mod_lt _ (by norm_num)

theorem bytesOk_sha256 (msg : List Nat) : BytesOk (sha256 msg) := by
  intro b hb
  simp only [sha256, List.mem_flatMap] at hb
  obtain ⟨x, _, hbx⟩ := hb
  exact bytesOk_beBytes 4 x b hbx

theorem bytesOk_merkleReduceLevel :
    ∀ l : List (List Nat), ∀ b ∈ merkleReduceLevel l, BytesOk b
  | [] => by simp [merkleReduceLevel]
  | [l] => by
    simp only [merkleReduceLevel, List.mem_singleton]
    rintro b rfl
    exact bytesOk_sha256 _
  | l :: r :: rest => by
    simp only [merkleReduceLevel, List.mem_cons]
    rintro b (rfl | hb)
    · exact bytesOk_sha256 _
    · exact bytesOk_merkleReduceLevel rest b hb

theorem bytesOk_merkleBranchesAux (fuel : Nat) :
    ∀ (level : List (List Nat)), (∀ h ∈ level, BytesOk h) →
      ∀ b ∈ merkleBranchesAux fuel level, BytesOk b := by
  induction fuel with
  | zero =>
    rintro (_ | ⟨x, _ | ⟨y, rest⟩⟩) hlev b hb
    · simp [merkleBranchesAux] at hb
    · simp only [merkleBranchesAux, List.mem_singleton] at hb
      exact hb ▸ hlev x (List.mem_singleton_self x)
    · simp only [merkleBranchesAux, List.mem_singleton] at hb
      exact hb ▸ hlev x (List.mem_cons_self _ _)
  | succ f ih =>
    rintro (_ | ⟨x, _ | ⟨y, rest⟩⟩) hlev b hb
    · simp [merkleBranchesAux] at hb
    · simp only [merkleBranchesAux, List.mem_singleton] at hb
      exact hb ▸ hlev x (List.mem_singleton_self x)
    · simp only [merkleBranchesAux, List.mem_cons] at hb
      rcases hb with rfl | hb
      · exact hlev b (List.mem_cons_self _ _)
      · exact ih _ (bytesOk_merkleReduceLevel _) b hb

/-- Folding encoded-then-decoded branches equals folding the raw byte branches. -/
theorem computeMerkleRoot_map_hexEncode (cb : List Nat) (branches : List (List Nat))
    (h : ∀ b ∈ branches, BytesOk b) :
    ComputeMerkleRoot cb (branches.map hexEncode) =
      branches.foldl (fun cur b => DoubleSHA256 (cur ++ b)) cb := by
  induction branches generalizing cb with
  | nil => rfl
  | cons b rest ih =>
    have hb : BytesOk b := h b (List.mem_cons_self _ _)
    have hrest : ∀ x ∈ rest, BytesOk x := fun x hx => h x (List.mem_cons_of_mem _ hx)
    simp only [List.map_cons, ComputeMerkleRoot, List.foldl_cons, hexDecodeGo_hexEncode b hb]
    exact ih (DoubleSHA256 (cb ++ b)) hrest

/-- The branch fold computes the full-tree root: the core invariant relating the
coinbase-path node to the remaining level. -/
theorem merkleRootAux_eq_branch_fold :
    ∀ (fuel : Nat) (level : List (List Nat)) (cb : List Nat), level.length ≤ fuel →
      merkleRootAux (fuel + 1) (cb :: level) =
        (merkleBranchesAux fuel level).foldl (fun cur b => DoubleSHA256 (cur ++ b)) cb := by
  intro fuel
  induction fuel with
  | zero =>
    intro level cb hlen
    interval_cases hl : level.length
    rw [List.length_eq_zero] at hl
    subst hl
    rfl
  | succ f ih =>
    intro level cb hlen
    match level with
    | [] => rfl
    | [x] =>
      show merkleRootAux (f + 1) (merkleReduceLevel [cb, x]) = _
      simp [merkleReduceLevel, merkleBranchesAux, merkleRootAux]
    | x :: y :: rest =>
      have hred : (merkleReduceLevel (y :: rest)).length ≤ f := by
        have := merkleReduceLevel_length (y :: rest)
        simp only [List.length_cons] at this hlen ⊢
        omega
      calc merkleRootAux (f + 1 + 1) (cb :: x :: y :: rest)
          = merkleRootAux (f + 1)
              (DoubleSHA256 (cb ++ x) :: merkleReduceLevel (y :: rest)) := rfl
        _ = (merkleBranchesAux f (merkleReduceLevel (y :: rest))).foldl
              (fun cur b => DoubleSHA256 (cur ++ b)) (DoubleSHA256 (cb ++ x)) :=
            ih _ _ hred
        _ = (merkleBranchesAux (f + 1) (x :: y :: rest)).foldl
              (fun cur b => DoubleSHA256 (cur ++ b)) cb := rfl

/-- C1: for every non-empty transaction-hash list `T` (internal byte order,
in-range bytes), recomputing the merkle root from the coinbase hash and the
Stratum branches (hex-encoded, as `CreateJob` stores and `ValidateShare`
consumes them) equals the root of the full merkle tree over `[coinbase] ++ T`,
where each level pairs adjacent elements with `DoubleSHA256 (left ++ right)`
and duplicates the last element when the count is odd. -/
theorem c1_merkle_branches_compute_root (cb : List Nat) (T : List (List Nat))
    (_hne : T ≠ []) (hok : ∀ h ∈ T, BytesOk h) :
    ComputeMerkleRoot cb ((MerkleBranchesForStratum T).map hexEncode) =
      merkleRootFull (cb :: T) := by
  have hbr : ∀ b ∈ MerkleBranchesForStratum T, BytesOk b :=
    bytesOk_merkleBranchesAux T.length T hok
  rw [computeMerkleRoot_map_hexEncode cb _ hbr]
  have := merkleRootAux_eq_branch_fold T.length T cb le_rfl
  simpa [merkleRootFull, MerkleBranchesForStratum] using this.symm

/-- C1 witness: a concrete two-transaction job evaluates equal on both sides. -/
theorem c1_merkle_branches_compute_root_witness :
    ComputeMerkleRoot [1] ((MerkleBranchesForStratum [[2], [3]]).map hexEncode) =
      merkleRootFull ([1] :: [[2], [3]]) :=
  c1_merkle_branches_compute_root [1] [[2], [3]] (by decide) (by decide)

/-! ## Vardiff retarget controller (`VardiffManager.CheckRetarget`)

Difficulties are Go `float64`, modelled by exact rationals; the `int` config
and counter fields are `ℤ`.  `time.Since(state.LastRetargetTime)` becomes
`now - state.lastRetargetTime` for an explicit `now` parameter, and the
`time.Now()` stores become `lastRetargetTime := now`. -/

/-- `config.VardiffConfig` (the fields `CheckRetarget` reads). -/
structure VardiffConfig where
  minDiff : ℚ
  startDiff : ℚ
  maxDiff : ℚ
  targetTimeSec : ℤ
  retargetTimeSec : ℤ
  variancePct : ℚ

/-- `stratum.VardiffState`. -/
structure VardiffState where
  lastRetargetTime : ℚ
  sharesInWindow : ℤ
  retargetCount : ℤ
deriving DecidableEq

/-- `VardiffManager.CheckRetarget`: returns `((newDifficulty, shouldChange),
updatedState)`. -/
def checkRetarget (v : VardiffConfig) (state : VardiffState)
    (currentDiff floorDiff : ℚ) (now : ℚ) : (ℚ × Bool) × VardiffState :=
  let elapsed : ℚ := now - state.lastRetargetTime
  let elapsed : ℚ := if elapsed < 1 / 1000 then 1 / 1000 else elapsed
  let retargetInterval : ℚ := (v.retargetTimeSec : ℚ)
  let floor : ℚ := if floorDiff > v.minDiff then floorDiff else v.minDiff
  let sharesPerSec : ℚ := (state.sharesInWindow : ℚ) / elapsed
  let targetSharesPerSec : ℚ := 1 / (v.targetTimeSec : ℚ)
  let floodRatio : ℚ := sharesPerSec / targetSharesPerSec
  let isFlooding : Prop := floodRatio > 3 ∧ elapsed ≥ 5
  let normalRetarget : Prop := elapsed ≥ retargetInterval
  if ¬isFlooding ∧ ¬normalRetarget then ((0, false), state)
  else if state.sharesInWindow = 0 then
    let newDiff := max (currentDiff / 2) floor
    ((newDiff, decide (newDiff ≠ currentDiff)),
      { state with lastRetargetTime := now, retargetCount := state.retargetCount + 1 })
  else
    let actualTimePerShare : ℚ := elapsed / (state.sharesInWindow : ℚ)
    let targetTime : ℚ := (v.targetTimeSec : ℚ)
    if (normalRetarget ∧ ¬isFlooding) ∧
        (targetTime * (1 - v.variancePct / 100) ≤ actualTimePerShare ∧
         actualTimePerShare ≤ targetTime * (1 + v.variancePct / 100)) then
      ((0, false),
        { lastRetargetTime := now, sharesInWindow := 0,
          retargetCount := state.retargetCount + 1 })
    else
      let ratio : ℚ := targetTime / actualTimePerShare
      let warmup : Prop := state.retargetCount < 3
      let ratio : ℚ :=
        if warmup then (if ratio < 1 / 4 then 1 / 4 else ratio)
        else if ratio > 2 then 2 else if ratio < 1 / 2 then 1 / 2 else ratio
      let idealDiff : ℚ := currentDiff * ratio
      let newDiff : ℚ :=
        if warmup then 1 / 4 * currentDiff + 3 / 4 * idealDiff
        else 1 / 2 * currentDiff + 1 / 2 * idealDiff
      let newDiff : ℚ := max newDiff floor
      let newDiff : ℚ := if v.maxDiff > 0 then min newDiff v.maxDiff else newDiff
      let st' : VardiffState :=
        { lastRetargetTime := now, sharesInWindow := 0,
          retargetCount := state.retargetCount + 1 }
      if |newDiff - currentDiff| / currentDiff < 1 / 20 then ((0, false), st')
      else ((newDiff, true), st')

/-- C5: with zero qualifying shares in the window, a triggered retarget yields
`new_diff = max(current/2, max(min_diff, floor_diff))` and reports a change
iff that differs from the current difficulty. -/
theorem c5_zero_shares_halve (v : VardiffConfig) (state : VardiffState)
    (currentDiff floorDiff now : ℚ)
    (hshares : state.sharesInWindow = 0)
    (hclamp : 1 / 1000 ≤ now - state.lastRetargetTime)
    (htrigger : (v.retargetTimeSec : ℚ) ≤ now - state.lastRetargetTime) :
    (checkRetarget v state currentDiff floorDiff now).1 =
      (max (currentDiff / 2) (max v.minDiff floorDiff),
        decide (max (currentDiff / 2) (max v.minDiff floorDiff) ≠ currentDiff)) := by
  have hfloor : (if floorDiff > v.minDiff then floorDiff else v.minDiff) =
      max v.minDiff floorDiff := by
    rcases le_or_lt floorDiff v.minDiff with h | h
    · simp [not_lt.mpr h, max_eq_left h]
    · simp [h, max_eq_right h.le]
  have hnl : ¬(now - state.lastRetargetTime < 1 / 1000) := not_lt.mpr hclamp
  rw [← hfloor]
  simp only [checkRetarget, if_neg hnl, hshares]
  split_ifs with h1 <;>
    first
      | rfl
      | exact absurd htrigger h1.2

/-- C5 witness: `current = 100`, floor below 50, an expired 90-second window →
difficulty halves to 50 and the change is reported. -/
theorem c5_zero_shares_halve_witness :
    (checkRetarget
        ⟨1, 1000, 0, 15, 90, 30⟩ ⟨0, 0, 0⟩ 100 0 95).1 = (50, true) := by
  have h := c5_zero_shares_halve ⟨1, 1000, 0, 15, 90, 30⟩ ⟨0, 0, 0⟩ 100 0 95
    (by norm_num) (by norm_num) (by norm_num)
  rw [h]
  norm_num [max_def]

/-- C6: ten shares in five seconds against a 15-second target is a flood
retarget with raw ratio 30.  In warmup (fewer than three past retargets) the
ratio is kept at 30 (only the `≥ 0.25` clamp applies) and the damped result is
`0.25·c + 0.75·30·c = 22.75·c`; in steady state the ratio is clamped to 2 and
the result is `0.5·c + 0.5·2·c = 1.5·c` — returned as a change whenever the
floor and ceiling clamps do not bind. -/
theorem c6_flood_ratio_damping (v : VardiffConfig) (state : VardiffState)
    (currentDiff floorDiff now : ℚ)
    (hshares : state.sharesInWindow = 10)
    (htarget : v.targetTimeSec = 15)
    (helapsed : now - state.lastRetargetTime = 5)
    (hcur : 0 < currentDiff)
    (hfloor : (if floorDiff > v.minDiff then floorDiff else v.minDiff) ≤ 3 / 2 * currentDiff)
    (hmax : v.maxDiff = 0 ∨ 91 / 4 * currentDiff ≤ v.maxDiff) :
    (state.retargetCount < 3 →
      (checkRetarget v state currentDiff floorDiff now).1 = (91 / 4 * currentDiff, true)) ∧
    (3 ≤ state.retargetCount →
      (checkRetarget v state currentDiff floorDiff now).1 = (3 / 2 * currentDiff, true)) := by
  constructor
  · intro hwarm
    simp only [checkRetarget, hshares, htarget, helapsed]
    norm_num
    simp only [if_pos hwarm]
    have hXval : (1 / 4 * currentDiff + 3 / 4 * (currentDiff * 30)) =
        91 / 4 * currentDiff := by ring
    have hFX : (if v.minDiff < floorDiff then floorDiff else v.minDiff) ≤
        1 / 4 * currentDiff + 3 / 4 * (currentDiff * 30) := by
      have := hfloor; linarith
    rw [sup_eq_left.mpr hFX]
    have h5 : ¬(|91 / 4 * currentDiff - currentDiff| / currentDiff < 1 / 20) := by
      rw [abs_of_nonneg (by linarith), not_lt, le_div_iff₀ hcur]
      linarith
    rcases hmax with h0 | hle
    · rw [h0]
      simp only [lt_self_iff_false, if_false]
      rw [hXval, if_neg h5]
    · have hpos : 0 < v.maxDiff := lt_of_lt_of_le (by linarith) hle
      have hXle : 1 / 4 * currentDiff + 3 / 4 * (currentDiff * 30) ≤ v.maxDiff := by
        linarith
      rw [if_pos hpos, inf_eq_left.mpr hXle, hXval, if_neg h5]
  · intro hsteady
    have hnwarm : ¬(state.retargetCount < 3) := not_lt.mpr hsteady
    simp only [checkRetarget, hshares, htarget, helapsed]
    norm_num
    simp only [if_neg hnwarm]
    have hXval : (1 / 2 * currentDiff + 1 / 2 * (currentDiff * 2)) =
        3 / 2 * currentDiff := by ring
    have hFX : (if v.minDiff < floorDiff then floorDiff else v.minDiff) ≤
        1 / 2 * currentDiff + 1 / 2 * (currentDiff * 2) := by
      have := hfloor; linarith
    rw [sup_eq_left.mpr hFX]
    have h5 : ¬(|3 / 2 * currentDiff - currentDiff| / currentDiff < 1 / 20) := by
      rw [abs_of_nonneg (by linarith), not_lt, le_div_iff₀ hcur]
      linarith
    rcases hmax with h0 | hle
    · rw [h0]
      simp only [lt_self_iff_false, if_false]
      rw [hXval, if_neg h5]
    · have hpos : 0 < v.maxDiff := lt_of_lt_of_le (by linarith) hle
      have hXle : 1 / 2 * currentDiff + 1 / 2 * (currentDiff * 2) ≤ v.maxDiff := by
        linarith
      rw [if_pos hpos, inf_eq_left.mpr hXle, hXval, if_neg h5]

/-- C6 witness: warmup with `current = 100` yields `2275`; after three
retargets the same flood yields `150`. -/
theorem c6_flood_ratio_damping_witness :
    (checkRetarget ⟨1, 1000, 0, 15, 90, 30⟩ ⟨0, 10, 0⟩ 100 0 5).1 = (2275, true) ∧
    (checkRetarget ⟨1, 1000, 0, 15, 90, 30⟩ ⟨0, 10, 3⟩ 100 0 5).1 = (150, true) := by
  constructor
  · have h := (c6_flood_ratio_damping ⟨1, 1000, 0, 15, 90, 30⟩ ⟨0, 10, 0⟩ 100 0 5
      (by norm_num) (by norm_num) (by norm_num) (by norm_num) (by norm_num)
      (Or.inl rfl)).1 (by norm_num)
    rw [h]
    norm_num
  · have h := (c6_flood_ratio_damping ⟨1, 1000, 0, 15, 90, 30⟩ ⟨0, 10, 3⟩ 100 0 5
      (by norm_num) (by norm_num) (by norm_num) (by norm_num) (by norm_num)
      (Or.inl rfl)).2 (by norm_num)
    rw [h]
    norm_num

/-! ## Upstream extranonce2 split (`Client.subscribe`,
`internal/upstream/client.go`)

After parsing the upstream `mining.subscribe` result, the client reserves up
to two bytes of the upstream extranonce2 space as a per-miner prefix, keeping
at least four bytes (one if the upstream space is tiny) for the local miners.
Go `int` is `ℤ`. -/

/-- The prefix/local-size computation at the end of `Client.subscribe`:
returns `(prefixBytes, localEN2Size)` for an upstream `extranonce2_size`. -/
def subscribeEN2Split (en2Size : ℤ) : ℤ × ℤ :=
  let prefixBytes : ℤ := 2
  let prefixBytes : ℤ :=
    if en2Size - prefixBytes < 4 then
      (if en2Size - 4 < 0 then 0 else en2Size - 4)
    else prefixBytes
  let localEN2Size : ℤ := en2Size - prefixBytes
  let localEN2Size : ℤ := if localEN2Size < 1 then 1 else localEN2Size
  (prefixBytes, localEN2Size)

/-- C9: for every upstream-advertised `extranonce2_size n ≥ 0`, the reserved
prefix is `max 0 (min 2 (n - 4))` bytes and the local extranonce2 size is
`max 1 (n - prefix)` bytes. -/
theorem c9_subscribe_en2_split (n : ℤ) (_hn : 0 ≤ n) :
    subscribeEN2Split n =
      (max 0 (min 2 (n - 4)), max 1 (n - max 0 (min 2 (n - 4)))) := by
  simp only [subscribeEN2Split]
  split_ifs <;>
    refine Prod.ext ?_ ?_ <;>
    simp only [max_def, min_def] <;>
    split_ifs <;>
    omega

/-- C9 witness: `n = 8` gives prefix 2 and local size 6; `n = 5` gives 1 and
4; `n = 4` gives 0 and 4. -/
theorem c9_subscribe_en2_split_witness :
    subscribeEN2Split 8 = (2, 6) ∧ subscribeEN2Split 5 = (1, 4) ∧
      subscribeEN2Split 4 = (0, 4) := by
  refine ⟨?_, ?_, ?_⟩ <;>
    rw [c9_subscribe_en2_split _ (by norm_num)] <;> decide

/-! ## The job table (`internal/stratum/jobs.go`)

`JobManager.jobs` is a Go map from job id to job; the model is an association
list in insertion (arrival) order with unique keys — `mapSet` replaces in
place or appends, `mapDelete` removes the key.  The eviction scans are
order-independent (they track a strict minimum over unique keys), so the
random Go map iteration order does not matter.  Job ids are ASCII, where Go's
bytewise string `<` agrees with Lean's lexicographic `<`. -/

/-- `stratum.Job` (the fields the modelled code paths read).  `hasTemplate`
stands for `Template != nil`; the template payload (transactions, height) is
only used for full-block serialisation, which no claim touches. -/
structure Job where
  id : String
  prevHash : String
  coinbase1 : String
  coinbase2 : String
  merkleBranches : List String
  version : String
  nbits : String
  ntime : String
  hasTemplate : Bool
  segwit : Bool
deriving DecidableEq

/-- The job table: association list in insertion order, unique keys. -/
def JobTable := List (String × Job)

instance : DecidableEq JobTable := inferInstanceAs (DecidableEq (List (String × Job)))

def tableKeys (t : JobTable) : List String := t.map Prod.fst

/-- Go map assignment `m[k] = j`: replace in place or append. -/
def mapSet : JobTable → String → Job → JobTable
  | [], k, j => [(k, j)]
  | (k', j') :: rest, k, j =>
    if k' = k then (k, j) :: rest else (k', j') :: mapSet rest k j

/-- Go `delete(m, k)`: remove the key (no-op when absent). -/
def mapDelete : JobTable → String → JobTable
  | [], _ => []
  | (k', j') :: rest, k => if k' = k then rest else (k', j') :: mapDelete rest k

/-- Go map read `m[k]`. -/
def tableGet : JobTable → String → Option Job
  | [], _ => none
  | (k', j') :: rest, k => if k' = k then some j' else tableGet rest k

/-- `fmt.Sscanf(id, "%x", &idNum)` semantics on the ids at hand: accumulate
leading hex digits, stop at the first non-digit (a failed scan leaves 0). -/
def scanHexNat : List Char → Nat → Nat
  | [], acc => acc
  | c :: rest, acc =>
    match hexDigitVal? c with
    | some d => scanHexNat rest (16 * acc + d)
    | none => acc

def sscanfHexNat (s : String) : Nat := scanHexNat s.data 0

/-- `fmt.Sprintf("%x", n)` digits (`fuel`-bounded; the wrapper passes `n`,
which always suffices since `n / 16 < n` for `n > 0`). -/
def natToHexAux : Nat → Nat → List Char
  | 0, _ => []
  | fuel + 1, n => if n = 0 then [] else natToHexAux fuel (n / 16) ++ [hexDigitChar (n % 16)]

/-- `fmt.Sprintf("%x", n)`: lowercase hex, no leading zeros. -/
def natToHexStr (n : Nat) : String :=
  if n = 0 then "0" else ⟨natToHexAux n n⟩

/-- The maximum `uint64`, the initial `oldestID` of `CreateJob`'s trim scan. -/
def uint64Max : Nat := 18446744073709551615

/-- The trim scan of `CreateJob`: the key with the strictly smallest
`Sscanf "%x"` value (Go iterates the map; uniqueness of the parsed values on
reachable tables makes the result order-independent).  Returns `""` — deleting
nothing — when no key parses below `uint64Max`, as in Go. -/
def createEvictKey (t : JobTable) : String :=
  (t.foldl
    (fun (best : Nat × String) kv =>
      if sscanfHexNat kv.1 < best.1 then (sscanfHexNat kv.1, kv.1) else best)
    (uint64Max, "")).2

/-- Go's bytewise string `<` on char lists (the job ids are ASCII, where this
agrees with byte order): strict lexicographic comparison. -/
def listCharLtB : List Char → List Char → Bool
  | [], [] => false
  | [], _ :: _ => true
  | _ :: _, [] => false
  | a :: as, b :: bs =>
    if a < b then true
    else if b < a then false
    else listCharLtB as bs

/-- Go string `<`. -/
def strLtB (a b : String) : Bool := listCharLtB a.data b.data

/-- The trim scan of `RegisterUpstreamJob`: the lexicographically smallest key
(`oldestAge == 1 || id < oldest` keeps the first key, then any strictly
smaller one). -/
def lexMinKey : JobTable → String
  | [] => ""
  | (k, _) :: rest => rest.foldl (fun best kv => if strLtB kv.1 best then kv.1 else best) k

/-- `JobManager.CreateJob` (solo), reduced to its table dynamics: the coinbase
and merkle construction that fills the `Job` value is covered by the merkle
section; here the built job arrives as a parameter.  Returns the new table
and counter. -/
def createJob (t : JobTable) (maxJobs : Nat) (nextID : Nat) (job : Job) :
    JobTable × Nat :=
  let nextID' := nextID + 1
  let jobID := natToHexStr nextID'
  let t' := mapSet t jobID job
  let t'' := if t'.length > maxJobs then mapDelete t' (createEvictKey t') else t'
  (t'', nextID')

/-- `JobManager.RegisterUpstreamJob` (proxy), reduced to its table dynamics:
clear on `clean_jobs`, insert, and trim the lexicographically smallest key
unless it is the job just inserted. -/
def registerUpstreamJob (t : JobTable) (maxJobs : Nat) (jobID : String)
    (job : Job) (cleanJobs : Bool) : JobTable :=
  let t₀ := if cleanJobs then [] else t
  let t' := mapSet t₀ jobID job
  if t'.length > maxJobs then
    let oldest := lexMinKey t'
    if oldest ≠ jobID then mapDelete t' oldest else t'
  else t'

theorem mapSet_length_of_not_mem : ∀ (t : JobTable) (k : String) (j : Job),
    k ∉ tableKeys t → (mapSet t k j).length = t.length + 1
  | [], _, _, _ => rfl
  | (k', j') :: rest, k, j, h => by
    have hk : k' ≠ k := fun he => h (by simp [tableKeys, he])
    have hrest : k ∉ tableKeys rest := fun hm => h (by simp [tableKeys] at hm ⊢; right; exact hm)
    simp only [mapSet, if_neg hk, List.length_cons,
      mapSet_length_of_not_mem rest k j hrest]

theorem mapSet_length_of_mem : ∀ (t : JobTable) (k : String) (j : Job),
    k ∈ tableKeys t → (mapSet t k j).length = t.length
  | [], _, _, h => by simp [tableKeys] at h
  | (k', j') :: rest, k, j, h => by
    by_cases hk : k' = k
    · simp [mapSet, hk]
    · have hrest : k ∈ tableKeys rest := by
        simp [tableKeys] at h
        rcases h with h | h
        · exact absurd h.symm hk
        · simpa [tableKeys] using h
      simp only [mapSet, if_neg hk, List.length_cons,
        mapSet_length_of_mem rest k j hrest]

theorem mapSet_length_le (t : JobTable) (k : String) (j : Job) :
    (mapSet t k j).length ≤ t.length + 1 := by
  by_cases h : k ∈ tableKeys t
  · rw [mapSet_length_of_mem t k j h]; omega
  · rw [mapSet_length_of_not_mem t k j h]

theorem mapDelete_length_of_mem : ∀ (t : JobTable) (k : String),
    k ∈ tableKeys t → (mapDelete t k).length = t.length - 1
  | [], _, h => by simp [tableKeys] at h
  | (k', j') :: rest, k, h => by
    by_cases hk : k' = k
    · simp [mapDelete, hk]
    · have hrest : k ∈ tableKeys rest := by
        simp [tableKeys] at h
        rcases h with h | h
        · exact absurd h.symm hk
        · simpa [tableKeys] using h
      have hlen : 1 ≤ rest.length := by
        cases rest with
        | nil => simp [tableKeys] at hrest
        | cons a l => simp
      simp only [mapDelete, if_neg hk, List.length_cons,
        mapDelete_length_of_mem rest k hrest]
      omega

theorem tableGet_mapSet_self : ∀ (t : JobTable) (k : String) (j : Job),
    tableGet (mapSet t k j) k = some j
  | [], _, _ => by simp [mapSet, tableGet]
  | (k', j') :: rest, k, j => by
    by_cases hk : k' = k
    · simp [mapSet, hk, tableGet]
    · simp only [mapSet, if_neg hk, tableGet, if_neg hk,
        tableGet_mapSet_self rest k j]

theorem tableGet_mapDelete_ne : ∀ (t : JobTable) (k k' : String),
    k' ≠ k → tableGet (mapDelete t k) k' = tableGet t k'
  | [], _, _, _ => rfl
  | (k₀, j₀) :: rest, k, k', hne => by
    by_cases hk : k₀ = k
    · subst hk
      simp only [mapDelete, eq_self_iff_true, if_true, tableGet,
        if_neg (fun h : k₀ = k' => hne h.symm)]
    · simp only [mapDelete, if_neg hk, tableGet]
      by_cases hk' : k₀ = k'
      · simp [hk']
      · simp only [if_neg hk', tableGet_mapDelete_ne rest k k' hne]

theorem mem_tableKeys_mapSet_of_mem : ∀ (t : JobTable) (k k' : String) (j : Job),
    k' ∈ tableKeys t → k' ∈ tableKeys (mapSet t k j)
  | [], _, _, _, h => by simp [tableKeys] at h
  | (k₀, j₀) :: rest, k, k', j, h => by
    simp only [tableKeys, List.map_cons, List.mem_cons] at h
    by_cases hk : k₀ = k
    · simp only [mapSet, if_pos hk, tableKeys, List.map_cons, List.mem_cons]
      rcases h with h | h
      · exact Or.inl (h.trans hk)
      · exact Or.inr h
    · simp only [mapSet, if_neg hk, tableKeys, List.map_cons, List.mem_cons]
      rcases h with h | h
      · exact Or.inl h
      · exact Or.inr (mem_tableKeys_mapSet_of_mem rest k k' j h)

theorem mem_tableKeys_mapDelete_of_ne : ∀ (t : JobTable) (k k' : String),
    k' ≠ k → k' ∈ tableKeys t → k' ∈ tableKeys (mapDelete t k)
  | [], _, _, _, h => by simp [tableKeys] at h
  | (k₀, j₀) :: rest, k, k', hne, h => by
    simp only [tableKeys, List.map_cons, List.mem_cons] at h
    by_cases hk : k₀ = k
    · rcases h with h | h
      · exact absurd (h.trans hk) hne
      · simp only [mapDelete, if_pos hk, tableKeys]
        exact h
    · simp only [mapDelete, if_neg hk, tableKeys, List.map_cons, List.mem_cons]
      rcases h with h | h
      · exact Or.inl h
      · exact Or.inr (mem_tableKeys_mapDelete_of_ne rest k k' hne h)

theorem tableKeys_nil : tableKeys ([] : JobTable) = [] := rfl

theorem tableKeys_cons (k : String) (j : Job) (t : JobTable) :
    tableKeys ((k, j) :: t) = k :: tableKeys t := rfl

theorem tableKeys_mapSet_of_not_mem : ∀ (t : JobTable) (k : String) (j : Job),
    k ∉ tableKeys t → tableKeys (mapSet t k j) = tableKeys t ++ [k]
  | [], _, _, _ => rfl
  | (k0, j0) :: rest, k, j, h => by
    have hk : k0 ≠ k := fun he => h (by simp [tableKeys_cons, he])
    have hrest : k ∉ tableKeys rest := fun hm => h (by
      simp only [tableKeys_cons, List.mem_cons]
      exact Or.inr hm)
    simp only [mapSet, if_neg hk, tableKeys_cons, List.cons_append,
      tableKeys_mapSet_of_not_mem rest k j hrest]

theorem tableKeys_mapSet_of_mem : ∀ (t : JobTable) (k : String) (j : Job),
    k ∈ tableKeys t → tableKeys (mapSet t k j) = tableKeys t
  | [], _, _, h => by simp [tableKeys_nil] at h
  | (k0, j0) :: rest, k, j, h => by
    by_cases hk : k0 = k
    · simp [mapSet, if_pos hk, tableKeys_cons, hk]
    · have hrest : k ∈ tableKeys rest := by
        simp only [tableKeys_cons, List.mem_cons] at h
        rcases h with h | h
        · exact absurd h.symm hk
        · exact h
      simp only [mapSet, if_neg hk, tableKeys_cons, tableKeys_mapSet_of_mem rest k j hrest]

theorem scanHexNat_natToHexAux_append (f : Nat) : ∀ (n : Nat), n ≤ f →
    ∀ (acc : Nat) (l : List Char),
      scanHexNat (natToHexAux f n ++ l) acc =
        scanHexNat l (acc * 16 ^ (natToHexAux f n).length + n) := by
  induction f with
  | zero =>
    intro n hn acc l
    interval_cases n
    simp [natToHexAux]
  | succ f ih =>
    intro n hn acc l
    by_cases h0 : n = 0
    · subst h0
      simp [natToHexAux]
    · have hdig := hexDigitVal?_hexDigitChar (n % 16) (Nat.mod_lt _ (by norm_num))
      have hrec : n / 16 ≤ f := by omega
      simp only [natToHexAux, if_neg h0]
      rw [List.append_assoc, ih (n / 16) hrec acc ([hexDigitChar (n % 16)] ++ l)]
      simp only [List.singleton_append, scanHexNat, hdig]
      simp only [List.length_append, List.length_singleton, pow_succ, ← mul_assoc]
      generalize acc * 16 ^ (natToHexAux f (n / 16)).length = B
      congr 1
      omega

/-- `Sscanf "%x"` inverts `Sprintf "%x"`. -/
theorem sscanfHexNat_natToHexStr (n : Nat) : sscanfHexNat (natToHexStr n) = n := by
  by_cases h0 : n = 0
  · subst h0; decide
  · simp only [natToHexStr, if_neg h0, sscanfHexNat]
    have := scanHexNat_natToHexAux_append n n le_rfl 0 []
    simpa [scanHexNat] using this

/-- Specification of `CreateJob`'s trim scan: the accumulated pair is the
initial one, or a key of the table paired with its parsed value; it only
decreases; and it bounds every key's parse. -/
theorem createEvictFold_spec : ∀ (t : JobTable) (best : Nat × String),
    ((t.foldl (fun (best : Nat × String) kv =>
        if sscanfHexNat kv.1 < best.1 then (sscanfHexNat kv.1, kv.1) else best) best) = best ∨
      ((t.foldl (fun (best : Nat × String) kv =>
        if sscanfHexNat kv.1 < best.1 then (sscanfHexNat kv.1, kv.1) else best) best).2 ∈ tableKeys t ∧
       (t.foldl (fun (best : Nat × String) kv =>
        if sscanfHexNat kv.1 < best.1 then (sscanfHexNat kv.1, kv.1) else best) best).1 =
         sscanfHexNat (t.foldl (fun (best : Nat × String) kv =>
        if sscanfHexNat kv.1 < best.1 then (sscanfHexNat kv.1, kv.1) else best) best).2)) ∧
    (t.foldl (fun (best : Nat × String) kv =>
        if sscanfHexNat kv.1 < best.1 then (sscanfHexNat kv.1, kv.1) else best) best).1 ≤ best.1 ∧
    ∀ k ∈ tableKeys t,
      (t.foldl (fun (best : Nat × String) kv =>
        if sscanfHexNat kv.1 < best.1 then (sscanfHexNat kv.1, kv.1) else best) best).1 ≤
        sscanfHexNat k
  | [], best => by simp [tableKeys_nil]
  | (k0, j0) :: rest, best => by
    have ihspec := createEvictFold_spec rest
    by_cases hlt : sscanfHexNat k0 < best.1
    · have h := ihspec (sscanfHexNat k0, k0)
      simp only [List.foldl_cons, if_pos hlt]
      refine ⟨?_, ?_, ?_⟩
      · rcases h.1 with he | hm
        · exact Or.inr (by rw [he]; exact ⟨by simp [tableKeys_cons], rfl⟩)
        · exact Or.inr ⟨by simp only [tableKeys_cons, List.mem_cons]; exact Or.inr hm.1, hm.2⟩
      · exact le_trans h.2.1 (le_of_lt hlt)
      · intro k hk
        simp only [tableKeys_cons, List.mem_cons] at hk
        rcases hk with rfl | hk
        · exact h.2.1
        · exact h.2.2 k hk
    · have h := ihspec best
      simp only [List.foldl_cons, if_neg hlt]
      refine ⟨?_, h.2.1, ?_⟩
      · rcases h.1 with he | hm
        · exact Or.inl he
        · exact Or.inr ⟨by simp only [tableKeys_cons, List.mem_cons]; exact Or.inr hm.1, hm.2⟩
      · intro k hk
        simp only [tableKeys_cons, List.mem_cons] at hk
        rcases hk with rfl | hk
        · exact le_trans h.2.1 (not_lt.mp hlt)
        · exact h.2.2 k hk

/-- `listCharLtB` decides the lexicographic list order. -/
theorem listCharLtB_iff : ∀ (as bs : List Char), listCharLtB as bs = true ↔ as < bs
  | [], [] => by
    constructor
    · intro h; simp [listCharLtB] at h
    · intro h; cases h
  | [], b :: bs => by
    constructor
    · intro _; exact List.Lex.nil
    · intro _; simp [listCharLtB]
  | _ :: _, [] => by
    constructor
    · intro h; simp [listCharLtB] at h
    · intro h; cases h
  | a :: as, b :: bs => by
    simp only [listCharLtB]
    split_ifs with h1 h2
    · exact iff_of_true rfl (List.Lex.rel h1)
    · refine iff_of_false (by simp) ?_
      intro h
      cases h with
      | cons _ => exact absurd h2 (lt_irrefl a)
      | rel hr => exact h1 hr
    · have heq : a = b := le_antisymm (not_lt.mp h2) (not_lt.mp h1)
      subst heq
      rw [listCharLtB_iff as bs]
      constructor
      · exact fun h => List.Lex.cons h
      · intro h
        cases h with
        | cons htl => exact htl
        | rel hr => exact absurd hr (lt_irrefl a)

/-- `strLtB` decides Mathlib's linear order on `String`. -/
theorem strLtB_iff (a b : String) : strLtB a b = true ↔ a < b := by
  rw [String.lt_iff_toList_lt]
  exact listCharLtB_iff a.data b.data

/-- Specification of `RegisterUpstreamJob`'s trim scan. -/
theorem lexMinFold_spec : ∀ (t : JobTable) (best : String),
    ((t.foldl (fun best kv => if strLtB kv.1 best then kv.1 else best) best) = best ∨
      (t.foldl (fun best kv => if strLtB kv.1 best then kv.1 else best) best) ∈ tableKeys t) ∧
    (t.foldl (fun best kv => if strLtB kv.1 best then kv.1 else best) best) ≤ best ∧
    ∀ k ∈ tableKeys t,
      (t.foldl (fun best kv => if strLtB kv.1 best then kv.1 else best) best) ≤ k
  | [], best => by simp [tableKeys_nil]
  | (k0, j0) :: rest, best => by
    have ihspec := lexMinFold_spec rest
    by_cases hlt : strLtB k0 best = true
    · have h := ihspec k0
      simp only [List.foldl_cons, if_pos hlt]
      refine ⟨?_, le_trans h.2.1 (le_of_lt ((strLtB_iff k0 best).mp hlt)), ?_⟩
      · rcases h.1 with he | hm
        · exact Or.inr (by rw [he]; simp [tableKeys_cons])
        · exact Or.inr (by simp only [tableKeys_cons, List.mem_cons]; exact Or.inr hm)
      · intro k hk
        simp only [tableKeys_cons, List.mem_cons] at hk
        rcases hk with rfl | hk
        · exact h.2.1
        · exact h.2.2 k hk
    · have h := ihspec best
      have hge : best ≤ k0 := not_lt.mp (fun hl => hlt ((strLtB_iff k0 best).mpr hl))
      simp only [List.foldl_cons, if_neg hlt]
      refine ⟨?_, h.2.1, ?_⟩
      · rcases h.1 with he | hm
        · exact Or.inl he
        · exact Or.inr (by simp only [tableKeys_cons, List.mem_cons]; exact Or.inr hm)
      · intro k hk
        simp only [tableKeys_cons, List.mem_cons] at hk
        rcases hk with rfl | hk
        · exact le_trans h.2.1 hge
        · exact h.2.2 k hk

/-- `lexMinKey` of a non-empty table is a key and bounds every key. -/
theorem lexMinKey_spec (k0 : String) (j0 : Job) (rest : JobTable) :
    lexMinKey ((k0, j0) :: rest) ∈ tableKeys ((k0, j0) :: rest) ∧
      ∀ k ∈ tableKeys ((k0, j0) :: rest), lexMinKey ((k0, j0) :: rest) ≤ k := by
  have h := lexMinFold_spec rest k0
  constructor
  · rcases h.1 with he | hm
    · simp only [lexMinKey, he, tableKeys_cons, List.mem_cons]
      exact Or.inl trivial
    · simp only [lexMinKey, tableKeys_cons, List.mem_cons]
      exact Or.inr hm
  · intro k hk
    simp only [tableKeys_cons, List.mem_cons] at hk
    rcases hk with rfl | hk
    · exact h.2.1
    · exact h.2.2 k hk

/-- C8 counterexample: eleven proxy jobs arriving with ids
`b, c, d, e, f, g, h, i, j, k` and then `a` (never with clean_jobs) leave the
table with 11 entries.  The eleventh id is the lexicographically smallest key,
so `RegisterUpstreamJob`'s trim skips eviction (`oldest != jobID`) and the
10-entry bound is exceeded; the eviction is also by lexicographic id order,
not arrival order. -/
theorem c8_register_upstream_bound_violated :
    (List.foldl
      (fun t id =>
        registerUpstreamJob t 10 id
          ⟨id, "", "", "", [], "", "", "", false, false⟩ false)
      [] ["b", "c", "d", "e", "f", "g", "h", "i", "j", "k", "a"]).length = 11 := by
  decide

/-- C8 as amended: (a) solo `CreateJob` keeps the table at ≤ 10 entries and
keeps the new job; when the bound overflows it evicts a key of the old table
with the smallest parsed job counter — the oldest by creation order.
(b) `RegisterUpstreamJob` with clean_jobs clears all entries before inserting.
(c) without clean_jobs, once the bound is exceeded it evicts the
*lexicographically smallest* job id — not the oldest by arrival — unless that
smallest id is the job just inserted, in which case nothing is evicted and
the table holds 11 entries. -/
theorem c8_job_table_eviction :
    (∀ (t : JobTable) (nextID : Nat) (job : Job),
      t.length ≤ 10 →
      (∀ k ∈ tableKeys t, ∃ m, 0 < m ∧ m ≤ nextID ∧ k = natToHexStr m) →
      nextID + 1 < uint64Max →
      (createJob t 10 nextID job).1.length ≤ 10 ∧
      tableGet (createJob t 10 nextID job).1 (natToHexStr (nextID + 1)) = some job ∧
      (t.length = 10 → natToHexStr (nextID + 1) ∉ tableKeys t →
        createEvictKey (mapSet t (natToHexStr (nextID + 1)) job) ∈ tableKeys t ∧
        (∀ k ∈ tableKeys t,
          sscanfHexNat (createEvictKey (mapSet t (natToHexStr (nextID + 1)) job)) ≤
            sscanfHexNat k) ∧
        (createJob t 10 nextID job).1 =
          mapDelete (mapSet t (natToHexStr (nextID + 1)) job)
            (createEvictKey (mapSet t (natToHexStr (nextID + 1)) job)))) ∧
    (∀ (t : JobTable) (jobID : String) (job : Job),
      registerUpstreamJob t 10 jobID job true = [(jobID, job)]) ∧
    (∀ (t : JobTable) (jobID : String) (job : Job),
      t.length ≤ 10 → jobID ∉ tableKeys t →
      (t.length < 10 → (registerUpstreamJob t 10 jobID job false).length ≤ 10) ∧
      (t.length = 10 →
        (lexMinKey (mapSet t jobID job) ≠ jobID →
          (registerUpstreamJob t 10 jobID job false).length = 10 ∧
          registerUpstreamJob t 10 jobID job false =
            mapDelete (mapSet t jobID job) (lexMinKey (mapSet t jobID job)) ∧
          lexMinKey (mapSet t jobID job) ∈ tableKeys (mapSet t jobID job) ∧
          (∀ k ∈ tableKeys (mapSet t jobID job), lexMinKey (mapSet t jobID job) ≤ k)) ∧
        (lexMinKey (mapSet t jobID job) = jobID →
          registerUpstreamJob t 10 jobID job false = mapSet t jobID job ∧
          (registerUpstreamJob t 10 jobID job false).length = 11))) := by
  refine ⟨?_, ?_, ?_⟩
  · -- (a) CreateJob
    intro t nextID job hlen hkeys hbound
    simp only [createJob]
    by_cases hov : (mapSet t (natToHexStr (nextID + 1)) job).length > 10
    · -- eviction path
      have hnm : natToHexStr (nextID + 1) ∉ tableKeys t := by
        intro hmem
        rw [mapSet_length_of_mem t _ job hmem] at hov
        omega
      have hlen11 : (mapSet t (natToHexStr (nextID + 1)) job).length = t.length + 1 :=
        mapSet_length_of_not_mem t _ job hnm
      have ht10 : t.length = 10 := by omega
      have hkeys' : tableKeys (mapSet t (natToHexStr (nextID + 1)) job) =
          tableKeys t ++ [natToHexStr (nextID + 1)] :=
        tableKeys_mapSet_of_not_mem t _ job hnm
      obtain ⟨k₀, hk₀⟩ : ∃ k₀, k₀ ∈ tableKeys t := by
        cases t with
        | nil => simp at ht10
        | cons kv rest => exact ⟨kv.1, by simp [tableKeys]⟩
      obtain ⟨m₀, hm₀pos, hm₀le, hk₀eq⟩ := hkeys k₀ hk₀
      have hspec := createEvictFold_spec (mapSet t (natToHexStr (nextID + 1)) job)
        (uint64Max, "")
      have hk₀' : k₀ ∈ tableKeys (mapSet t (natToHexStr (nextID + 1)) job) := by
        rw [hkeys']; exact List.mem_append_left _ hk₀
      have hminle : (((mapSet t (natToHexStr (nextID + 1)) job).foldl
          (fun (best : Nat × String) kv =>
            if sscanfHexNat kv.1 < best.1 then (sscanfHexNat kv.1, kv.1) else best)
          (uint64Max, "")).1) ≤ sscanfHexNat k₀ := hspec.2.2 k₀ hk₀'
      have hparsek₀ : sscanfHexNat k₀ = m₀ := by rw [hk₀eq, sscanfHexNat_natToHexStr]
      have hne_init : ((mapSet t (natToHexStr (nextID + 1)) job).foldl
          (fun (best : Nat × String) kv =>
            if sscanfHexNat kv.1 < best.1 then (sscanfHexNat kv.1, kv.1) else best)
          (uint64Max, "")) ≠ (uint64Max, "") := by
        intro heq
        rw [heq] at hminle
        have hle : uint64Max ≤ sscanfHexNat k₀ := hminle
        rw [hparsek₀] at hle
        simp only [uint64Max] at hle hbound
        omega
      have hr := hspec.1.resolve_left hne_init
      have hr2ne : ((mapSet t (natToHexStr (nextID + 1)) job).foldl
          (fun (best : Nat × String) kv =>
            if sscanfHexNat kv.1 < best.1 then (sscanfHexNat kv.1, kv.1) else best)
          (uint64Max, "")).2 ≠ natToHexStr (nextID + 1) := by
        intro heq
        have := hr.2
        rw [heq, sscanfHexNat_natToHexStr] at this
        rw [this] at hminle
        omega
      have hr2mem : ((mapSet t (natToHexStr (nextID + 1)) job).foldl
          (fun (best : Nat × String) kv =>
            if sscanfHexNat kv.1 < best.1 then (sscanfHexNat kv.1, kv.1) else best)
          (uint64Max, "")).2 ∈ tableKeys t := by
        have := hr.1
        rw [hkeys'] at this
        rcases List.mem_append.mp this with h | h
        · exact h
        · exact absurd (List.mem_singleton.mp h) hr2ne
      have hevict : createEvictKey (mapSet t (natToHexStr (nextID + 1)) job) ∈
          tableKeys (mapSet t (natToHexStr (nextID + 1)) job) := by
        rw [hkeys']
        exact List.mem_append_left _ hr2mem
      have hckeq : createEvictKey (mapSet t (natToHexStr (nextID + 1)) job) =
          ((mapSet t (natToHexStr (nextID + 1)) job).foldl
            (fun (best : Nat × String) kv =>
              if sscanfHexNat kv.1 < best.1 then (sscanfHexNat kv.1, kv.1) else best)
            (uint64Max, "")).2 := rfl
      refine ⟨?_, ?_, fun _ _ => ⟨hr2mem, ?_, ?_⟩⟩
      · rw [if_pos hov, mapDelete_length_of_mem _ _ hevict]
        omega
      · rw [if_pos hov, hckeq,
          tableGet_mapDelete_ne _ _ _ (fun h => hr2ne h.symm),
          tableGet_mapSet_self]
      · intro k hk
        have : k ∈ tableKeys (mapSet t (natToHexStr (nextID + 1)) job) := by
          rw [hkeys']; exact List.mem_append_left _ hk
        have := hspec.2.2 k this
        calc sscanfHexNat (createEvictKey (mapSet t (natToHexStr (nextID + 1)) job))
            = ((mapSet t (natToHexStr (nextID + 1)) job).foldl
                (fun (best : Nat × String) kv =>
                  if sscanfHexNat kv.1 < best.1 then (sscanfHexNat kv.1, kv.1) else best)
                (uint64Max, "")).1 := hr.2.symm
          _ ≤ sscanfHexNat k := this
      · rw [if_pos hov]
    · -- no eviction
      have hle : (mapSet t (natToHexStr (nextID + 1)) job).length ≤ 10 := by omega
      refine ⟨by rw [if_neg hov]; exact hle, by rw [if_neg hov]; exact tableGet_mapSet_self t _ job, ?_⟩
      intro ht10 hnm
      exfalso
      rw [mapSet_length_of_not_mem t _ job hnm, ht10] at hov
      omega
  · -- (b) clean_jobs clears
    intro t jobID job
    rfl
  · -- (c) RegisterUpstreamJob without clean_jobs
    intro t jobID job hlen hnm
    have hlen' : (mapSet t jobID job).length = t.length + 1 :=
      mapSet_length_of_not_mem t jobID job hnm
    constructor
    · intro hlt
      simp only [registerUpstreamJob, Bool.false_eq_true, if_false]
      rw [if_neg (by omega)]
      omega
    · intro ht10
      have hov : (mapSet t jobID job).length > 10 := by omega
      have hmin : lexMinKey (mapSet t jobID job) ∈ tableKeys (mapSet t jobID job) ∧
          ∀ k ∈ tableKeys (mapSet t jobID job), lexMinKey (mapSet t jobID job) ≤ k := by
        rcases hm : mapSet t jobID job with _ | ⟨⟨k0, j0⟩, rest⟩
        · rw [hm] at hlen'; simp at hlen' 
        · rw [← hm]
          have := lexMinKey_spec k0 j0 rest
          rw [← hm] at this
          exact this
      constructor
      · intro hne
        refine ⟨?_, ?_, hmin.1, hmin.2⟩
        · simp only [registerUpstreamJob, Bool.false_eq_true, if_false]
          rw [if_pos hov, if_pos hne, mapDelete_length_of_mem _ _ hmin.1]
          omega
        · simp only [registerUpstreamJob, Bool.false_eq_true, if_false]
          rw [if_pos hov, if_pos hne]
      · intro heq
        constructor
        · simp only [registerUpstreamJob, Bool.false_eq_true, if_false]
          rw [if_pos hov, if_neg (by simp [heq])]
        · simp only [registerUpstreamJob, Bool.false_eq_true, if_false]
          rw [if_pos hov, if_neg (by simp [heq])]
          omega

/-- C8 witness: the amended theorem applied to concrete tables — an empty solo
table accepts a job and stays within bounds; a clean_jobs proxy insert yields
a singleton table; a proxy insert into a small table stays within bounds. -/
theorem c8_job_table_eviction_witness :
    (createJob [] 10 0 ⟨"1", "", "", "", [], "", "", "", false, false⟩).1.length ≤ 10 ∧
    registerUpstreamJob [] 10 "a" ⟨"a", "", "", "", [], "", "", "", false, false⟩ true =
      [("a", ⟨"a", "", "", "", [], "", "", "", false, false⟩)] ∧
    (registerUpstreamJob [] 10 "a" ⟨"a", "", "", "", [], "", "", "", false, false⟩
      false).length ≤ 10 :=
  ⟨(c8_job_table_eviction.1 [] 0 ⟨"1", "", "", "", [], "", "", "", false, false⟩
      (by decide) (by simp [tableKeys_nil]) (by norm_num [uint64Max])).1,
   c8_job_table_eviction.2.1 [] "a" ⟨"a", "", "", "", [], "", "", "", false, false⟩,
   (c8_job_table_eviction.2.2 [] "a" ⟨"a", "", "", "", [], "", "", "", false, false⟩
      (by decide) (by simp [tableKeys_nil])).1 (by decide)⟩

/-! ## Block-header reconstruction (`buildBlockHeader`, session.go)

All uint32 fields arrive as big-endian hex and are reversed to little-endian
in the 80-byte header.  Go checks hex errors only for the submitted `ntime`
and `nonce`; the job-side `version`, `prevhash` and `nbits` decodes discard
the error, and malformed values hit an out-of-range index or a short slice in
`binary.BigEndian.Uint32` — a runtime panic, modelled as a distinguished
outcome.  An invalid `version_bits` is silently ignored (no error, no roll). -/

/-- Outcome of `buildBlockHeader`: the header bytes, a returned error
(modelled by the static part of the Go error message), or a Go panic. -/
inductive HeaderResult where
  | ok (header : List Nat)
  | err (msg : String)
  | panicked
deriving DecidableEq

/-- The per-4-byte-group reversal applied to the Stratum prevhash. -/
def swapGroups4 : List Nat → List Nat
  | b0 :: b1 :: b2 :: b3 :: rest => b3 :: b2 :: b1 :: b0 :: swapGroups4 rest
  | _ => []

/-- Go `copy(dst32, src)`: first 32 bytes of `src`, zero-padded to 32. -/
def copy32 (src : List Nat) : List Nat :=
  src.take 32 ++ List.replicate (32 - src.length) 0

/-- Big-endian-hex-decoded u32 field reversed into header order: the first
four bytes, reversed. -/
def rev4 (l : List Nat) : List Nat := (l.take 4).reverse

/-- `buildBlockHeader(job, merkleRoot, ntimeHex, nonceHex, versionBitsHex,
versionMask)`. -/
def buildBlockHeader (job : Job) (merkleRoot : List Nat)
    (ntimeHex nonceHex versionBitsHex : String) (versionMask : Nat) : HeaderResult :=
  let versionBytes := (hexDecodeGo job.version).1
  if versionBytes.length < 4 then .panicked
  else
    let versionInt := beUint32 versionBytes
    let versionInt :=
      if versionBitsHex ≠ "" ∧ versionMask ≠ 0 then
        let vb := hexDecodeGo versionBitsHex
        if vb.2 = true ∧ vb.1.length = 4 then
          versionInt ^^^ (beUint32 vb.1 &&& versionMask)
        else versionInt
      else versionInt
    let prevHashBytes := (hexDecodeGo job.prevHash).1
    if prevHashBytes.length < 32 then .panicked
    else
      let ntime := hexDecodeGo ntimeHex
      if ntime.2 = false then .err "invalid ntime hex"
      else if ntime.1.length ≠ 4 then .err "invalid ntime length"
      else
        let nbitsBytes := (hexDecodeGo job.nbits).1
        if nbitsBytes.length < 4 then .panicked
        else
          let nonce := hexDecodeGo nonceHex
          if nonce.2 = false then .err "invalid nonce hex"
          else if nonce.1.length ≠ 4 then .err "invalid nonce length"
          else
            .ok (leBytes4 versionInt ++ swapGroups4 (prevHashBytes.take 32) ++
              copy32 merkleRoot ++ rev4 ntime.1 ++ rev4 nbitsBytes ++ rev4 nonce.1)

/-- C2 counterexample: a job whose `version` is not valid hex makes
`buildBlockHeader` panic (out-of-range `binary.BigEndian.Uint32`) instead of
returning an error result, for a perfectly well-formed submission. -/
theorem c2_invalid_version_panics :
    buildBlockHeader
      ⟨"1",
        "0000000000000000000000000000000000000000000000000000000000000000",
        "", "", [], "zz", "207fffff", "60000000", true, false⟩
      (List.replicate 32 0) "60000000" "00000001" "" 0 = .panicked ∧
    (hexDecodeGo "zz").2 = false := by
  constructor
  · rfl
  · rfl

/-- C2 as amended: when the job-side fields are well-formed (version and
nbits decode to at least 4 bytes, prevhash to at least 32), `buildBlockHeader`
never panics, and it returns an error exactly when the submitted `ntime` or
`nonce` fails to hex-decode or is not 4 bytes; a malformed `version_bits` is
silently ignored rather than reported. -/
theorem c2_header_errors (job : Job) (merkleRoot : List Nat)
    (ntimeHex nonceHex versionBitsHex : String) (versionMask : Nat)
    (hv : 4 ≤ (hexDecodeGo job.version).1.length)
    (hp : 32 ≤ (hexDecodeGo job.prevHash).1.length)
    (hb : 4 ≤ (hexDecodeGo job.nbits).1.length) :
    buildBlockHeader job merkleRoot ntimeHex nonceHex versionBitsHex versionMask ≠
      .panicked ∧
    ((∃ e, buildBlockHeader job merkleRoot ntimeHex nonceHex versionBitsHex versionMask =
        .err e) ↔
      ¬(((hexDecodeGo ntimeHex).2 = true ∧ (hexDecodeGo ntimeHex).1.length = 4) ∧
        ((hexDecodeGo nonceHex).2 = true ∧ (hexDecodeGo nonceHex).1.length = 4))) := by
  simp only [buildBlockHeader]
  rw [if_neg (by omega : ¬(hexDecodeGo job.version).1.length < 4),
    if_neg (by omega : ¬(hexDecodeGo job.prevHash).1.length < 32),
    if_neg (by omega : ¬(hexDecodeGo job.nbits).1.length < 4)]
  rcases hnt : (hexDecodeGo ntimeHex).2 with _ | _
  · simp [hnt]
  · rcases hntl : decide ((hexDecodeGo ntimeHex).1.length = 4) with _ | _
    · have hntl' : (hexDecodeGo ntimeHex).1.length ≠ 4 := of_decide_eq_false hntl
      simp [hntl']
    · have hntl' : (hexDecodeGo ntimeHex).1.length = 4 := of_decide_eq_true hntl
      rcases hno : (hexDecodeGo nonceHex).2 with _ | _
      · simp [hno, hntl']
      · rcases hnol : decide ((hexDecodeGo nonceHex).1.length = 4) with _ | _
        · have hnol' : (hexDecodeGo nonceHex).1.length ≠ 4 := of_decide_eq_false hnol
          simp [hnt, hno, hntl', hnol']
        · have hnol' : (hexDecodeGo nonceHex).1.length = 4 := of_decide_eq_true hnol
          simp [hnt, hno, hntl', hnol']

/-- C2 witness: a well-formed job with a malformed nonce yields an error, not
a panic. -/
theorem c2_header_errors_witness :
    buildBlockHeader
      ⟨"1",
        "0000000000000000000000000000000000000000000000000000000000000000",
        "", "", [], "20000000", "207fffff", "60000000", true, false⟩
      (List.replicate 32 0) "60000000" "zz" "" 0 ≠ .panicked ∧
    (∃ e, buildBlockHeader
      ⟨"1",
        "0000000000000000000000000000000000000000000000000000000000000000",
        "", "", [], "20000000", "207fffff", "60000000", true, false⟩
      (List.replicate 32 0) "60000000" "zz" "" 0 = .err e) := by
  have h := c2_header_errors
    ⟨"1",
      "0000000000000000000000000000000000000000000000000000000000000000",
      "", "", [], "20000000", "207fffff", "60000000", true, false⟩
    (List.replicate 32 0) "60000000" "zz" "" 0
    (by decide) (by decide) (by decide)
  exact ⟨h.1, h.2.mpr (by decide)⟩

/-! ## Share validation (`ShareValidator.ValidateShare`, session.go)

The validator looks the job up, records the submission fingerprint in the
duplicate set (before any decoding), reconstructs the coinbase, recomputes the
merkle root, rebuilds the header, hashes it, and computes the share
difficulty.  The `big.Float` difficulty is modelled as an exact rational; the
full-block serialisation (`buildFullBlock`, only consumed by the node-RPC
submission path) is outside the model, as is the node submission itself. -/

/-- The pool difficulty-1 target
`0x00000000FFFF…FF` (8 zero digits then 56 `F`s). -/
def pdiff1Target : Nat := 2 ^ 224 - 1

/-- `ShareSubmission`. -/
structure ShareSubmission where
  workerName : String
  jobID : String
  extranonce2 : String
  ntime : String
  nonce : String
  versionBits : String
  versionMask : Nat
deriving DecidableEq

/-- `ShareResult` (the fields the modelled paths read; `BlockHex` is the
full-block serialisation, outside the model). -/
structure ShareResult where
  valid : Bool
  blockFound : Bool
  difficulty : ℚ
  blockHash : String
deriving DecidableEq

/-- Outcome of `ValidateShare`: a result, a `StratumError` (code and the
static part of the message), or a propagated Go panic. -/
inductive ValidateOutcome where
  | ok (res : ShareResult)
  | err (code : Nat) (msg : String)
  | panicked
deriving DecidableEq

/-- The duplicate set: job id → recorded fingerprints. -/
def DupTable := List (String × List String)

instance : DecidableEq DupTable := inferInstanceAs (DecidableEq (List (String × List String)))

/-- The fingerprints recorded for a job (Go reads a possibly-nil inner map). -/
def dupGet : DupTable → String → List String
  | [], _ => []
  | (k, v) :: rest, jobID => if k = jobID then v else dupGet rest jobID

/-- Record a fingerprint for a job (Go lazily allocates the inner map). -/
def dupAdd : DupTable → String → String → DupTable
  | [], jobID, key => [(jobID, [key])]
  | (k, v) :: rest, jobID, key =>
    if k = jobID then (k, key :: v) :: rest else (k, v) :: dupAdd rest jobID key

/-- Big-endian integer of a byte list (`big.Int.SetBytes`). -/
def beNat (bs : List Nat) : Nat := bs.foldl (fun acc b => acc * 256 + b) 0

/-- `CompactToBig`: nBits compact target as an integer (negative when the
sign bit is set); 0 when the hex is not exactly 4 bytes. -/
def CompactToBig (nbitsHex : String) : ℤ :=
  let nbitsBytes := (hexDecodeGo nbitsHex).1
  if nbitsBytes.length ≠ 4 then 0
  else
    let compact := beUint32 nbitsBytes
    let exponent := compact >>> 24
    let mantissa := compact &&& 0x007fffff
    let target : ℤ :=
      if exponent ≤ 3 then ((mantissa >>> (8 * (3 - exponent)) : Nat) : ℤ)
      else ((mantissa * 2 ^ (8 * (exponent - 3)) : Nat) : ℤ)
    if compact &&& 0x00800000 ≠ 0 then -target else target

/-- `ShareValidator.ValidateShare(extranonce1, sub)`: the outcome and the
updated duplicate set.  The fingerprint is recorded as soon as the job is
found and the submission is not already a duplicate — before the coinbase or
header is decoded. -/
def ValidateShare (jobs : JobTable) (dups : DupTable) (extranonce1 : String)
    (sub : ShareSubmission) : ValidateOutcome × DupTable :=
  match tableGet jobs sub.jobID with
  | none => (.err 21 "job not found", dups)
  | some job =>
    let dupeKey := sub.extranonce2 ++ sub.ntime ++ sub.nonce ++ sub.versionBits
    if dupeKey ∈ dupGet dups sub.jobID then (.err 22 "duplicate share", dups)
    else
      let dups := dupAdd dups sub.jobID dupeKey
      let coinbaseHex := job.coinbase1 ++ extranonce1 ++ sub.extranonce2 ++ job.coinbase2
      let cb := hexDecodeGo coinbaseHex
      if cb.2 = false then (.err 20 "invalid coinbase hex", dups)
      else
        let coinbaseHash := DoubleSHA256 cb.1
        let merkleRoot := ComputeMerkleRoot coinbaseHash job.merkleBranches
        match buildBlockHeader job merkleRoot sub.ntime sub.nonce sub.versionBits
            sub.versionMask with
        | .panicked => (.panicked, dups)
        | .err _ => (.err 20 "build header", dups)
        | .ok header =>
          let blockHash := DoubleSHA256 header
          let hashReversed := (copy32 blockHash).reverse
          let hashInt := beNat hashReversed
          let actualDiff : ℚ :=
            if hashInt = 0 then 1000000000000000000
            else (pdiff1Target : ℚ) / (hashInt : ℚ)
          let blockFound := decide ((hashInt : ℤ) ≤ CompactToBig job.nbits)
          (.ok { valid := true, blockFound := blockFound, difficulty := actualDiff,
                 blockHash := if blockFound then hexEncode hashReversed else "" },
           dups)

theorem dupGet_dupAdd_self : ∀ (d : DupTable) (jobID key : String),
    dupGet (dupAdd d jobID key) jobID = key :: dupGet d jobID
  | [], jobID, key => by simp [dupAdd, dupGet]
  | (k, v) :: rest, jobID, key => by
    by_cases hk : k = jobID
    · simp [dupAdd, hk, dupGet]
    · simp only [dupAdd, if_neg hk, dupGet, if_neg hk,
        dupGet_dupAdd_self rest jobID key]

/-- C10: the fingerprint is recorded before the coinbase and header are
decoded, so a submission that fails later validation with error 20 still
poisons the duplicate set: resubmitting the identical tuple on the same live
job is then rejected with error 22 (duplicate), not error 20. -/
theorem c10_failed_share_still_recorded (jobs : JobTable) (dups : DupTable)
    (extranonce1 : String) (sub : ShareSubmission) (msg : String)
    (h20 : (ValidateShare jobs dups extranonce1 sub).1 = .err 20 msg) :
    (ValidateShare jobs (ValidateShare jobs dups extranonce1 sub).2 extranonce1 sub).1 =
      .err 22 "duplicate share" := by
  rcases hjob : tableGet jobs sub.jobID with _ | job
  · simp only [ValidateShare, hjob] at h20
    simp at h20
  · by_cases hdup :
      (sub.extranonce2 ++ sub.ntime ++ sub.nonce ++ sub.versionBits) ∈
        dupGet dups sub.jobID
    · simp only [ValidateShare, hjob, if_pos hdup] at h20
      simp at h20
    · have hrec : (ValidateShare jobs dups extranonce1 sub).2 =
          dupAdd dups sub.jobID
            (sub.extranonce2 ++ sub.ntime ++ sub.nonce ++ sub.versionBits) := by
        simp only [ValidateShare, hjob, if_neg hdup]
        rcases hcb : (hexDecodeGo (job.coinbase1 ++ extranonce1 ++ sub.extranonce2 ++
            job.coinbase2)).2 with _ | _
        · simp
        · rcases hbh : buildBlockHeader job
              (ComputeMerkleRoot
                (DoubleSHA256 (hexDecodeGo (job.coinbase1 ++ extranonce1 ++
                  sub.extranonce2 ++ job.coinbase2)).1)
                job.merkleBranches)
              sub.ntime sub.nonce sub.versionBits sub.versionMask with hdr | e | _
          all_goals simp [hbh]
      rw [hrec]
      simp only [ValidateShare, hjob]
      rw [if_pos (by rw [dupGet_dupAdd_self]; exact List.mem_cons_self _ _)]

/-- C10 witness: an undecodable extranonce2 fails with code 20, and the
identical resubmission is rejected as a duplicate (code 22). -/
theorem c10_failed_share_still_recorded_witness :
    (ValidateShare
      [("1", ⟨"1",
        "0000000000000000000000000000000000000000000000000000000000000000",
        "", "", [], "20000000", "207fffff", "60000000", true, false⟩)]
      (ValidateShare
        [("1", ⟨"1",
          "0000000000000000000000000000000000000000000000000000000000000000",
          "", "", [], "20000000", "207fffff", "60000000", true, false⟩)]
        [] "" ⟨"w", "1", "zz", "60000000", "00000001", "", 0⟩).2
      "" ⟨"w", "1", "zz", "60000000", "00000001", "", 0⟩).1 =
      .err 22 "duplicate share" :=
  c10_failed_share_still_recorded
    [("1", ⟨"1",
      "0000000000000000000000000000000000000000000000000000000000000000",
      "", "", [], "20000000", "207fffff", "60000000", true, false⟩)]
    [] "" ⟨"w", "1", "zz", "60000000", "00000001", "", 0⟩
    "invalid coinbase hex" (by decide)

/-! ## The session state machine (session.go handlers)

JSON framing is outside the model: each handler takes the parameters its Go
counterpart extracts (`ParamString` etc.; a missing or unparsable parameter
arrives as `""` or `none`, exactly the zero value the discarded-error Go code
leaves behind) and returns the reply it would serialise, the updated session,
and flags for the callbacks it would fire.  Socket writes, logging, server
atomic counters, node-RPC block submission and the proxy share-forwarding
call are effects outside the modelled state; none of the claims touch them. -/

/-- The server fields the session handlers read. -/
structure ServerCtx where
  proxyMode : Bool
  extranonce2Size : Nat
  vardiffCfg : VardiffConfig
  upstreamDiff : ℚ
  proxyVersionMask : Nat
  currentJobID : Option String
  lookupWorkerDiff : Option (String → ℚ)

/-- A serialised reply: the JSON result (`true`/`false`) and the error code
when a `StratumError` is attached. -/
structure Reply where
  result : Bool
  errCode : Option Nat
deriving DecidableEq

/-- The per-session state (`stratum.Session`) the handlers touch. -/
structure SessionState where
  extranonce1 : String
  subscribed : Bool
  authorized : Bool
  workerName : String
  userAgent : String
  currentDiff : ℚ
  oldDiff : ℚ
  bestDifficulty : ℚ
  suggestedDiff : ℚ
  diffChangeJobID : String
  sharesAccepted : Nat
  sharesRejected : Nat
  sharesDuped : Nat
  vardiffState : VardiffState
  versionRolling : Bool
  versionMask : Nat
deriving DecidableEq

/-- `VardiffManager.StartDiff`. -/
def StartDiff (v : VardiffConfig) : ℚ :=
  if v.startDiff > 0 then v.startDiff else v.minDiff

/-- ASCII `strings.ToLower`. -/
def toLowerStr (s : String) : String := ⟨s.data.map Char.toLower⟩

def listPrefixB : List Char → List Char → Bool
  | [], _ => true
  | _ :: _, [] => false
  | a :: as, b :: bs => a = b && listPrefixB as bs

/-- `strings.Contains` on char lists. -/
def listInfixB : List Char → List Char → Bool
  | pat, [] => listPrefixB pat []
  | pat, l@(_ :: rest) => listPrefixB pat l || listInfixB pat rest

/-- `VardiffManager.StartDiffForUA`. -/
def StartDiffForUA (v : VardiffConfig) (userAgent : String) : ℚ :=
  if listInfixB "nerdminer".data (toLowerStr userAgent).data then v.minDiff
  else StartDiff v

/-- `Session.handleSubscribe` (the subscription-payload reply is elided; its
JSON result is a success). -/
def handleSubscribe (ctx : ServerCtx) (s : SessionState) (uaParam : Option String) :
    Reply × SessionState :=
  let s : SessionState := { s with subscribed := true }
  let s : SessionState :=
    match uaParam with
    | some ua => if ua ≠ "" then { s with userAgent := ua } else s
    | none => s
  let s : SessionState :=
    if s.userAgent ≠ "" ∧ s.suggestedDiff = 0 then
      let uaDiff := StartDiffForUA ctx.vardiffCfg s.userAgent
      if uaDiff ≠ s.currentDiff then { s with currentDiff := uaDiff } else s
    else s
  (⟨true, none⟩, s)

/-- `Session.handleAuthorize`. -/
def handleAuthorize (ctx : ServerCtx) (s : SessionState) (workerName : String) :
    Reply × SessionState :=
  if s.subscribed = false then (⟨false, some 25⟩, s)
  else if workerName = "" then (⟨false, some 24⟩, s)
  else
    let s := { s with workerName := workerName, authorized := true }
    let s :=
      if ctx.proxyMode then
        (if ctx.upstreamDiff > 0 then { s with currentDiff := ctx.upstreamDiff } else s)
      else
        match ctx.lookupWorkerDiff with
        | some lookup =>
          if s.currentDiff = StartDiff ctx.vardiffCfg then
            let stored := lookup workerName
            if stored > 0 then
              let stored := if stored < ctx.vardiffCfg.minDiff then ctx.vardiffCfg.minDiff
                else stored
              let stored := if ctx.vardiffCfg.maxDiff > 0 ∧ stored > ctx.vardiffCfg.maxDiff
                then ctx.vardiffCfg.maxDiff else stored
              { s with currentDiff := stored }
            else s
          else s
        | none => s
    (⟨true, none⟩, s)

/-- `Session.handleSuggestDifficulty`. -/
def handleSuggestDifficulty (ctx : ServerCtx) (s : SessionState) (diffParam : Option ℚ) :
    Reply × SessionState :=
  match diffParam with
  | none => (⟨false, some 20⟩, s)
  | some diff =>
    let diff := if diff < ctx.vardiffCfg.minDiff then ctx.vardiffCfg.minDiff else diff
    let diff := if ctx.vardiffCfg.maxDiff > 0 ∧ diff > ctx.vardiffCfg.maxDiff then
        ctx.vardiffCfg.maxDiff else diff
    let s := { s with
      suggestedDiff := diff,
      oldDiff := s.currentDiff,
      diffChangeJobID :=
        match ctx.currentJobID with
        | some j => j
        | none => s.diffChangeJobID,
      currentDiff := diff }
    (⟨true, none⟩, s)

/-- `Session.handleConfigure` (the result map reply is elided; its JSON result
is a success).  Parameters arrive structured: the requested extension list,
the `version-rolling.mask` hex string, and the `minimum-difficulty.value`
(`none` models both a missing key and an unparsable value). -/
def handleConfigure (ctx : ServerCtx) (s : SessionState) (extensions : List String)
    (maskParam : Option String) (minDiffParam : Option ℚ) : Reply × SessionState :=
  let s := extensions.foldl (fun s ext =>
    if ext = "version-rolling" then
      let poolMask : Nat :=
        if ctx.proxyMode ∧ ctx.proxyVersionMask ≠ 0 then ctx.proxyVersionMask
        else 0x1fffe000
      let mask : Nat :=
        match maskParam with
        | some maskHex =>
          let mb := hexDecodeGo maskHex
          if mb.2 = true ∧ mb.1.length = 4 then poolMask &&& beUint32 mb.1 else poolMask
        | none => poolMask
      if ctx.proxyMode ∧ ctx.proxyVersionMask = 0 then s
      else { s with versionRolling := true, versionMask := mask }
    else if ext = "minimum-difficulty" then
      match minDiffParam with
      | some v =>
        if v > 0 then
          let v := if v < ctx.vardiffCfg.minDiff then ctx.vardiffCfg.minDiff else v
          let v := if ctx.vardiffCfg.maxDiff > 0 ∧ v > ctx.vardiffCfg.maxDiff then
              ctx.vardiffCfg.maxDiff else v
          { s with currentDiff := v }
        else s
      | none => s
    else s) s
  (⟨true, none⟩, s)

/-- The extranonce2 length fix-up at the top of `handleSubmit`: truncate when
too long, left-pad with `'0'` when too short but non-empty. -/
def normalizeEN2 (en2 : String) (expectedLen : Nat) : String :=
  if en2.length ≠ expectedLen then
    (if en2.length > expectedLen then ⟨en2.data.take expectedLen⟩
     else if en2.length > 0 then
       ⟨List.replicate (expectedLen - en2.length) '0' ++ en2.data⟩
     else en2)
  else en2

/-- `strconv.ParseUint(s, 16, 64)` with the discarded error: the parsed value,
0 on a syntax error, `uint64Max` on range overflow. -/
def parseUintHex64 (s : String) : Nat :=
  if s.data ≠ [] ∧ s.data.all (fun c => (hexDigitVal? c).isSome) then
    (let v := s.data.foldl (fun acc c => 16 * acc + (hexDigitVal? c).getD 0) 0
     if v < 2 ^ 64 then v else uint64Max)
  else 0

/-- What `handleSubmit` produces: the reply it serialises, the updated session
and duplicate set, which callbacks fire, and whether a validator panic
propagated (in which case no reply is written and `reply` is meaningless). -/
structure SubmitOutcome where
  reply : Reply
  session : SessionState
  dups : DupTable
  rejectedCallback : Bool
  acceptedCallback : Bool
  blockFoundCallback : Bool
  panicked : Bool

/-- `Session.handleSubmit`.  The submission parameters arrive as the strings
`ParamString` extracts.  In the accepted path: count the share, best-difficulty
bookkeeping, grace-period effective difficulty, qualifying-share recording,
and the solo-mode vardiff retarget.  Proxy share forwarding and solo block
submission only fire callbacks. -/
def handleSubmit (ctx : ServerCtx) (s : SessionState) (jobs : JobTable) (dups : DupTable)
    (worker jobID en2 ntime nonce versionBits : String) (now : ℚ) : SubmitOutcome :=
  if s.authorized = false then
    ⟨⟨false, some 24⟩, s, dups, false, false, false, false⟩
  else
    let expectedEN2Len := ctx.extranonce2Size * 2
    let en2 := normalizeEN2 en2 expectedEN2Len
    let sub : ShareSubmission := ⟨worker, jobID, en2, ntime, nonce, versionBits, s.versionMask⟩
    let vres := ValidateShare jobs dups s.extranonce1 sub
    match vres.1 with
    | .panicked => ⟨⟨false, none⟩, s, vres.2, false, false, false, true⟩
    | .err code _ =>
      if code = 22 then
        ⟨⟨false, some code⟩, { s with sharesDuped := s.sharesDuped + 1 }, vres.2,
          false, false, false, false⟩
      else
        ⟨⟨false, some code⟩, { s with sharesRejected := s.sharesRejected + 1 }, vres.2,
          true, false, false, false⟩
    | .ok result =>
      let s1 := { s with
        sharesAccepted := s.sharesAccepted + 1,
        bestDifficulty :=
          if result.difficulty > s.bestDifficulty then result.difficulty
          else s.bestDifficulty }
      let effectiveDiff : ℚ :=
        if ctx.proxyMode then
          (if ctx.upstreamDiff > 0 then ctx.upstreamDiff else s1.currentDiff)
        else if s1.oldDiff > 0 ∧ s1.diffChangeJobID ≠ "" then
          (let submitJobNum := parseUintHex64 jobID
           let changeJobNum := parseUintHex64 s1.diffChangeJobID
           if submitJobNum > 0 ∧ submitJobNum ≤ changeJobNum then s1.oldDiff
           else s1.currentDiff)
        else s1.currentDiff
      let meetsTarget := result.difficulty ≥ effectiveDiff
      let s2 :=
        if meetsTarget then
          { s1 with vardiffState :=
            { s1.vardiffState with sharesInWindow := s1.vardiffState.sharesInWindow + 1 } }
        else s1
      let s3 :=
        if ctx.proxyMode = false then
          (let rchk := checkRetarget ctx.vardiffCfg s2.vardiffState s2.currentDiff
            s2.suggestedDiff now
           if rchk.1.2 = true then
             { s2 with
               vardiffState := rchk.2,
               oldDiff := s2.currentDiff,
               diffChangeJobID :=
                 match ctx.currentJobID with
                 | some j => j
                 | none => s2.diffChangeJobID,
               currentDiff := rchk.1.1 }
           else { s2 with vardiffState := rchk.2 })
        else s2
      ⟨⟨true, none⟩, s3, vres.2, false, true, result.blockFound, false⟩

/-- The message kinds `handleRequest` dispatches on, with the parameters each
handler extracts. -/
inductive Msg where
  | configure (extensions : List String) (mask : Option String) (minDiff : Option ℚ)
  | subscribe (ua : Option String)
  | authorize (worker : String)
  | submit (worker jobID en2 ntime nonce versionBits : String)
  | suggestDifficulty (diff : Option ℚ)
  | extranonceSubscribe
  | unknown

/-- `Session.handleRequest`: dispatch one message. -/
def handleRequest (ctx : ServerCtx) (s : SessionState) (jobs : JobTable) (dups : DupTable)
    (msg : Msg) (now : ℚ) : Reply × SessionState × DupTable :=
  match msg with
  | .configure exts mask md =>
    let r := handleConfigure ctx s exts mask md
    (r.1, r.2, dups)
  | .subscribe ua =>
    let r := handleSubscribe ctx s ua
    (r.1, r.2, dups)
  | .authorize w =>
    let r := handleAuthorize ctx s w
    (r.1, r.2, dups)
  | .submit w j e nt no vb =>
    let o := handleSubmit ctx s jobs dups w j e nt no vb now
    (o.reply, o.session, o.dups)
  | .suggestDifficulty d =>
    let r := handleSuggestDifficulty ctx s d
    (r.1, r.2, dups)
  | .extranonceSubscribe => (⟨true, none⟩, s, dups)
  | .unknown => (⟨false, some 20⟩, s, dups)

theorem handleConfigure_authorized (ctx : ServerCtx) (s : SessionState)
    (exts : List String) (mp : Option String) (mdp : Option ℚ) :
    (handleConfigure ctx s exts mp mdp).2.authorized = s.authorized := by
  simp only [handleConfigure]
  induction exts generalizing s with
  | nil => rfl
  | cons e rest ih =>
    rw [List.foldl_cons, ih]
    rcases mdp with _ | v <;> dsimp only <;>
      first
        | rfl
        | (split_ifs <;> rfl)

theorem handleSubscribe_authorized (ctx : ServerCtx) (s : SessionState)
    (ua : Option String) :
    (handleSubscribe ctx s ua).2.authorized = s.authorized := by
  simp only [handleSubscribe]
  rcases ua with _ | u <;> dsimp only <;>
    first
      | rfl
      | (split_ifs <;> rfl)

theorem handleSuggestDifficulty_authorized (ctx : ServerCtx) (s : SessionState)
    (d : Option ℚ) :
    (handleSuggestDifficulty ctx s d).2.authorized = s.authorized := by
  rcases d with _ | v <;> rfl

theorem handleSubmit_authorized (ctx : ServerCtx) (s : SessionState) (jobs : JobTable)
    (dups : DupTable) (worker jobID en2 ntime nonce versionBits : String) (now : ℚ) :
    (handleSubmit ctx s jobs dups worker jobID en2 ntime nonce versionBits now).session.authorized =
      s.authorized := by
  by_cases ha : s.authorized = false
  · simp [handleSubmit, ha]
  · simp only [handleSubmit, if_neg ha]
    split <;>
      first
        | rfl
        | (split_ifs <;> rfl)

/-- C4: a `mining.submit` on an unauthorized session is answered `false` with
error 24 and changes nothing; a `mining.authorize` on an unsubscribed session
is answered `false` with error 25 and changes nothing (so the session stays
unauthorized); and across every message kind, a session can only become
authorized through a `mining.authorize` received while subscribed —
`NEW → SUBSCRIBED → AUTHORIZED`. -/
theorem c4_session_state_machine :
    (∀ (ctx : ServerCtx) (s : SessionState) (jobs : JobTable) (dups : DupTable)
        (worker jobID en2 ntime nonce versionBits : String) (now : ℚ),
      s.authorized = false →
      handleSubmit ctx s jobs dups worker jobID en2 ntime nonce versionBits now =
        ⟨⟨false, some 24⟩, s, dups, false, false, false, false⟩) ∧
    (∀ (ctx : ServerCtx) (s : SessionState) (worker : String),
      s.subscribed = false →
      handleAuthorize ctx s worker = (⟨false, some 25⟩, s)) ∧
    (∀ (ctx : ServerCtx) (s : SessionState) (jobs : JobTable) (dups : DupTable)
        (msg : Msg) (now : ℚ),
      (handleRequest ctx s jobs dups msg now).2.1.authorized = true →
      s.authorized = true ∨ (∃ w, msg = .authorize w ∧ s.subscribed = true)) := by
  refine ⟨?_, ?_, ?_⟩
  · intro ctx s jobs dups worker jobID en2 ntime nonce versionBits now h
    simp [handleSubmit, h]
  · intro ctx s worker h
    simp [handleAuthorize, h]
  · intro ctx s jobs dups msg now h
    cases msg with
    | configure exts mp mdp =>
      rw [show (handleRequest ctx s jobs dups (.configure exts mp mdp) now).2.1 =
          (handleConfigure ctx s exts mp mdp).2 from rfl,
        handleConfigure_authorized] at h
      exact Or.inl h
    | subscribe ua =>
      rw [show (handleRequest ctx s jobs dups (.subscribe ua) now).2.1 =
          (handleSubscribe ctx s ua).2 from rfl,
        handleSubscribe_authorized] at h
      exact Or.inl h
    | authorize w =>
      by_cases hs : s.subscribed = false
      · rw [show (handleRequest ctx s jobs dups (.authorize w) now).2.1 =
            (handleAuthorize ctx s w).2 from rfl] at h
        simp only [handleAuthorize, if_pos hs] at h
        exact Or.inl h
      · have hs' : s.subscribed = true := by
          revert hs; cases s.subscribed <;> simp
        exact Or.inr ⟨w, rfl, hs'⟩
    | submit w j e nt no vb =>
      rw [show (handleRequest ctx s jobs dups (.submit w j e nt no vb) now).2.1 =
          (handleSubmit ctx s jobs dups w j e nt no vb now).session from rfl,
        handleSubmit_authorized] at h
      exact Or.inl h
    | suggestDifficulty d =>
      rw [show (handleRequest ctx s jobs dups (.suggestDifficulty d) now).2.1 =
          (handleSuggestDifficulty ctx s d).2 from rfl,
        handleSuggestDifficulty_authorized] at h
      exact Or.inl h
    | extranonceSubscribe => exact Or.inl h
    | unknown => exact Or.inl h

/-- C4 witness: an unauthorized submit is refused with 24 and leaves the
session untouched; an unsubscribed authorize is refused with 25; and a
subscribed session that handles an authorize (becoming authorized) satisfies
the transition disjunction. -/
theorem c4_session_state_machine_witness :
    handleSubmit ⟨false, 4, ⟨1, 1000, 0, 15, 90, 30⟩, 0, 0, none, none⟩
      ⟨"", true, false, "", "", 1000, 0, 0, 0, "", 0, 0, 0, ⟨0, 0, 0⟩, false, 0⟩
      [] [] "w" "1" "00000000" "60000000" "00000001" "" 0 =
      ⟨⟨false, some 24⟩,
        ⟨"", true, false, "", "", 1000, 0, 0, 0, "", 0, 0, 0, ⟨0, 0, 0⟩, false, 0⟩,
        [], false, false, false, false⟩ ∧
    handleAuthorize ⟨false, 4, ⟨1, 1000, 0, 15, 90, 30⟩, 0, 0, none, none⟩
      ⟨"", false, false, "", "", 1000, 0, 0, 0, "", 0, 0, 0, ⟨0, 0, 0⟩, false, 0⟩ "w" =
      (⟨false, some 25⟩,
        ⟨"", false, false, "", "", 1000, 0, 0, 0, "", 0, 0, 0, ⟨0, 0, 0⟩, false, 0⟩) ∧
    ((⟨"", true, false, "", "", 1000, 0, 0, 0, "", 0, 0, 0, ⟨0, 0, 0⟩, false, 0⟩ :
        SessionState).authorized = true ∨
      (∃ w, (Msg.authorize "w") = .authorize w ∧
        (⟨"", true, false, "", "", 1000, 0, 0, 0, "", 0, 0, 0, ⟨0, 0, 0⟩, false, 0⟩ :
          SessionState).subscribed = true)) :=
  ⟨c4_session_state_machine.1 _ _ [] [] "w" "1" "00000000" "60000000" "00000001" "" 0 rfl,
   c4_session_state_machine.2.1 _ _ "w" rfl,
   c4_session_state_machine.2.2
     ⟨false, 4, ⟨1, 1000, 0, 15, 90, 30⟩, 0, 0, none, none⟩
     ⟨"", true, false, "", "", 1000, 0, 0, 0, "", 0, 0, 0, ⟨0, 0, 0⟩, false, 0⟩
     [] [] (.authorize "w") 0 rfl⟩

theorem normalizeEN2_of_length (x : String) (L : Nat) (h : x.length = L) :
    normalizeEN2 x L = x := by
  simp [normalizeEN2, h]

theorem normalizeEN2_idem (en2 : String) (L : Nat) :
    normalizeEN2 (normalizeEN2 en2 L) L = normalizeEN2 en2 L := by
  by_cases hL : en2.length = L
  · rw [normalizeEN2_of_length en2 L hL, normalizeEN2_of_length en2 L hL]
  · by_cases hgt : en2.length > L
    · apply normalizeEN2_of_length
      have hd : en2.data.length = en2.length := rfl
      simp only [normalizeEN2, if_pos hL, if_pos hgt]
      show (en2.data.take L).length = L
      rw [List.length_take]
      omega
    · by_cases h0 : en2.length = 0
      · have he : normalizeEN2 en2 L = en2 := by
          simp [normalizeEN2, hL, h0]
        rw [he]
        exact he
      · apply normalizeEN2_of_length
        have hd : en2.data.length = en2.length := rfl
        simp only [normalizeEN2, if_pos hL, if_neg hgt,
          if_pos (by omega : en2.length > 0)]
        show (List.replicate (L - en2.length) '0' ++ en2.data).length = L
        rw [List.length_append, List.length_replicate]
        omega

/-- C7 counterexample: an empty extranonce2 is *not* left-padded — the
`len(en2) > 0` guard skips it — so a submission with `en2 = ""` reaches the
validator, and the duplicate set records the fingerprint with the empty
extranonce2 rather than the padded `"00000000"`.  (The share is still not
rejected for its length: the empty coinbase insert decodes fine.) -/
theorem c7_empty_en2_not_padded :
    normalizeEN2 "" 8 = "" ∧ ("" : String) ≠ "00000000" ∧
    (handleSubmit ⟨false, 4, ⟨1, 1000, 0, 15, 90, 30⟩, 0, 0, none, none⟩
        ⟨"", true, true, "w", "", 1000, 0, 0, 0, "", 0, 0, 0, ⟨0, 0, 0⟩, false, 0⟩
        [("1", ⟨"1",
          "0000000000000000000000000000000000000000000000000000000000000000",
          "", "", [], "20000000", "207fffff", "60000000", true, false⟩)]
        [] "w" "1" "" "60000000" "00000001" "" 0).dups =
      [("1", ["6000000000000001"])] := by
  refine ⟨rfl, by decide, ?_⟩
  rfl

/-- C7 as amended: the submitted extranonce2 is silently normalized before
validation — truncated to `2 × en2_size` characters when too long,
left-padded with `'0'` when too short **but non-empty**; an empty string is
passed through unchanged.  `handleSubmit`'s behaviour depends only on the
normalized string (normalization is silent and never a rejection). -/
theorem c7_en2_normalization :
    (∀ (en2 : String) (expectedLen : Nat),
      (expectedLen < en2.length →
        normalizeEN2 en2 expectedLen = ⟨en2.data.take expectedLen⟩) ∧
      (0 < en2.length → en2.length < expectedLen →
        normalizeEN2 en2 expectedLen =
          ⟨List.replicate (expectedLen - en2.length) '0' ++ en2.data⟩) ∧
      (en2.length = 0 ∨ en2.length = expectedLen →
        normalizeEN2 en2 expectedLen = en2)) ∧
    (∀ (ctx : ServerCtx) (s : SessionState) (jobs : JobTable) (dups : DupTable)
        (worker jobID en2 ntime nonce versionBits : String) (now : ℚ),
      handleSubmit ctx s jobs dups worker jobID en2 ntime nonce versionBits now =
        handleSubmit ctx s jobs dups worker jobID
          (normalizeEN2 en2 (ctx.extranonce2Size * 2)) ntime nonce versionBits now) := by
  constructor
  · intro en2 expectedLen
    refine ⟨?_, ?_, ?_⟩
    · intro hgt
      rw [normalizeEN2, if_pos (by omega : en2.length ≠ expectedLen), if_pos hgt]
    · intro hpos hlt
      rw [normalizeEN2, if_pos (by omega : en2.length ≠ expectedLen),
        if_neg (by omega : ¬en2.length > expectedLen), if_pos hpos]
    · rintro (h0 | heq)
      · by_cases hL : expectedLen = 0
        · rw [normalizeEN2, if_neg (by omega : ¬en2.length ≠ expectedLen)]
        · rw [normalizeEN2, if_pos (by omega : en2.length ≠ expectedLen),
            if_neg (by omega : ¬en2.length > expectedLen),
            if_neg (by omega : ¬en2.length > 0)]
      · rw [normalizeEN2, if_neg (by omega : ¬en2.length ≠ expectedLen)]
  · intro ctx s jobs dups worker jobID en2 ntime nonce versionBits now
    by_cases ha : s.authorized = false
    · simp [handleSubmit, ha]
    · simp only [handleSubmit, if_neg ha]
      rw [normalizeEN2_idem]

/-- C7 witness: the normalization cases evaluate on concrete strings, and a
mis-sized submission behaves exactly as its normalized form. -/
theorem c7_en2_normalization_witness :
    normalizeEN2 "a1b2c3d4ff" 8 = ⟨"a1b2c3d4ff".data.take 8⟩ ∧
    normalizeEN2 "a1" 8 = ⟨List.replicate 6 '0' ++ "a1".data⟩ ∧
    normalizeEN2 "a1b2c3d4" 8 = "a1b2c3d4" ∧
    handleSubmit ⟨false, 4, ⟨1, 1000, 0, 15, 90, 30⟩, 0, 0, none, none⟩
        ⟨"", true, true, "w", "", 1000, 0, 0, 0, "", 0, 0, 0, ⟨0, 0, 0⟩, false, 0⟩
        [] [] "w" "1" "a1" "60000000" "00000001" "" 0 =
      handleSubmit ⟨false, 4, ⟨1, 1000, 0, 15, 90, 30⟩, 0, 0, none, none⟩
        ⟨"", true, true, "w", "", 1000, 0, 0, 0, "", 0, 0, 0, ⟨0, 0, 0⟩, false, 0⟩
        [] [] "w" "1" (normalizeEN2 "a1" 8) "60000000" "00000001" "" 0 :=
  ⟨(c7_en2_normalization.1 "a1b2c3d4ff" 8).1 (by decide),
   (c7_en2_normalization.1 "a1" 8).2.1 (by decide) (by decide),
   (c7_en2_normalization.1 "a1b2c3d4" 8).2.2 (Or.inr (by decide)),
   c7_en2_normalization.2
     ⟨false, 4, ⟨1, 1000, 0, 15, 90, 30⟩, 0, 0, none, none⟩
     ⟨"", true, true, "w", "", 1000, 0, 0, 0, "", 0, 0, 0, ⟨0, 0, 0⟩, false, 0⟩
     [] [] "w" "1" "a1" "60000000" "00000001" "" 0⟩

/-! ## C3: duplicate shares -/

set_option maxHeartbeats 2000000 in
/-- C3: submitting the identical tuple `(job_id, extranonce2, ntime, nonce,
version_bits)` twice, when the first submission was accepted (`true` reply),
makes the second reply `false` with error 22 (duplicate share); after both
calls `sharesAccepted` has grown by exactly 1, `sharesRejected` is unchanged,
and the duplicate fires no rejection callback. -/
theorem c3_duplicate_share (ctx : ServerCtx) (s : SessionState) (jobs : JobTable)
    (dups : DupTable) (worker jobID en2 ntime nonce versionBits : String)
    (now now' : ℚ)
    (hok : (handleSubmit ctx s jobs dups worker jobID en2 ntime nonce versionBits
        now).reply = ⟨true, none⟩) :
    (handleSubmit ctx
        (handleSubmit ctx s jobs dups worker jobID en2 ntime nonce versionBits
          now).session
        jobs
        (handleSubmit ctx s jobs dups worker jobID en2 ntime nonce versionBits
          now).dups
        worker jobID en2 ntime nonce versionBits now').reply = ⟨false, some 22⟩ ∧
    (handleSubmit ctx
        (handleSubmit ctx s jobs dups worker jobID en2 ntime nonce versionBits
          now).session
        jobs
        (handleSubmit ctx s jobs dups worker jobID en2 ntime nonce versionBits
          now).dups
        worker jobID en2 ntime nonce versionBits now').session.sharesAccepted =
      s.sharesAccepted + 1 ∧
    (handleSubmit ctx
        (handleSubmit ctx s jobs dups worker jobID en2 ntime nonce versionBits
          now).session
        jobs
        (handleSubmit ctx s jobs dups worker jobID en2 ntime nonce versionBits
          now).dups
        worker jobID en2 ntime nonce versionBits now').session.sharesRejected =
      s.sharesRejected ∧
    (handleSubmit ctx
        (handleSubmit ctx s jobs dups worker jobID en2 ntime nonce versionBits
          now).session
        jobs
        (handleSubmit ctx s jobs dups worker jobID en2 ntime nonce versionBits
          now).dups
        worker jobID en2 ntime nonce versionBits now').rejectedCallback = false := by
  by_cases hauth : s.authorized = false
  · rw [handleSubmit, if_pos hauth] at hok
    simp at hok
  · rcases hv : (ValidateShare jobs dups s.extranonce1
        ⟨worker, jobID, normalizeEN2 en2 (ctx.extranonce2Size * 2), ntime, nonce,
         versionBits, s.versionMask⟩).1 with res | ⟨code, msg⟩ | _
    · rcases hjob : tableGet jobs jobID with _ | job
      · exfalso
        simp only [ValidateShare, hjob] at hv
        simp at hv
      · by_cases hdup :
          (normalizeEN2 en2 (ctx.extranonce2Size * 2) ++ ntime ++ nonce ++ versionBits) ∈
            dupGet dups jobID
        · exfalso
          simp only [ValidateShare, hjob, if_pos hdup] at hv
          simp at hv
        · have hrec : (ValidateShare jobs dups s.extranonce1
              ⟨worker, jobID, normalizeEN2 en2 (ctx.extranonce2Size * 2), ntime, nonce,
               versionBits, s.versionMask⟩).2 =
              dupAdd dups jobID
                (normalizeEN2 en2 (ctx.extranonce2Size * 2) ++ ntime ++ nonce ++
                  versionBits) := by
            simp only [ValidateShare, hjob, if_neg hdup]
            rcases hcb : (hexDecodeGo (job.coinbase1 ++ s.extranonce1 ++
                normalizeEN2 en2 (ctx.extranonce2Size * 2) ++ job.coinbase2)).2 with _ | _
            · simp
            · rcases hbh : buildBlockHeader job
                  (ComputeMerkleRoot
                    (DoubleSHA256 (hexDecodeGo (job.coinbase1 ++ s.extranonce1 ++
                      normalizeEN2 en2 (ctx.extranonce2Size * 2) ++ job.coinbase2)).1)
                    job.merkleBranches)
                  ntime nonce versionBits s.versionMask with hdr | e | _
              all_goals simp [hbh]
          have hdups : (handleSubmit ctx s jobs dups worker jobID en2 ntime nonce
              versionBits now).dups =
              dupAdd dups jobID
                (normalizeEN2 en2 (ctx.extranonce2Size * 2) ++ ntime ++ nonce ++
                  versionBits) := by
            simp only [handleSubmit, if_neg hauth, hv]
            exact hrec
          have hacc : (handleSubmit ctx s jobs dups worker jobID en2 ntime nonce
              versionBits now).session.sharesAccepted = s.sharesAccepted + 1 := by
            simp only [handleSubmit, if_neg hauth, hv,
              apply_ite SessionState.sharesAccepted, ite_self]
          have hrej : (handleSubmit ctx s jobs dups worker jobID en2 ntime nonce
              versionBits now).session.sharesRejected = s.sharesRejected := by
            simp only [handleSubmit, if_neg hauth, hv,
              apply_ite SessionState.sharesRejected, ite_self]
          have hauth1 : (handleSubmit ctx s jobs dups worker jobID en2 ntime nonce
              versionBits now).session.authorized = s.authorized := by
            simp only [handleSubmit, if_neg hauth, hv,
              apply_ite SessionState.authorized, ite_self]
          rw [hdups]
          generalize hS : (handleSubmit ctx s jobs dups worker jobID en2 ntime nonce
            versionBits now).session = S
          rw [hS] at hacc hrej hauth1
          have hauth2 : ¬ S.authorized = false := by
            rw [hauth1]; exact hauth
          have h22 : (ValidateShare jobs
              (dupAdd dups jobID
                (normalizeEN2 en2 (ctx.extranonce2Size * 2) ++ ntime ++ nonce ++
                  versionBits))
              S.extranonce1
              ⟨worker, jobID, normalizeEN2 en2 (ctx.extranonce2Size * 2), ntime, nonce,
               versionBits, S.versionMask⟩).1 = .err 22 "duplicate share" := by
            simp only [ValidateShare, hjob]
            rw [if_pos (by rw [dupGet_dupAdd_self]; exact List.mem_cons_self _ _)]
          simp only [handleSubmit, if_neg hauth2, h22]
          exact ⟨rfl, hacc, hrej, rfl⟩
    · exfalso
      simp only [handleSubmit, if_neg hauth, hv] at hok
      split at hok <;> simp at hok
    · exfalso
      simp only [handleSubmit, if_neg hauth, hv] at hok
      simp at hok

/-- C3 witness: a concrete valid share on a live job is accepted, and its
identical resubmission is refused with code 22 while the counters move as
claimed. -/
theorem c3_duplicate_share_witness :
    (handleSubmit ⟨false, 4, ⟨1, 1000, 0, 15, 90, 30⟩, 0, 0, none, none⟩
        ⟨"", true, true, "w", "", 1000, 0, 0, 0, "", 0, 0, 0, ⟨0, 0, 0⟩, false, 0⟩
        [("1", ⟨"1",
          "0000000000000000000000000000000000000000000000000000000000000000",
          "", "", [], "20000000", "207fffff", "60000000", true, false⟩)]
        [] "w" "1" "00000000" "60000000" "00000001" "" 0).reply = ⟨true, none⟩ ∧
    ((handleSubmit ⟨false, 4, ⟨1, 1000, 0, 15, 90, 30⟩, 0, 0, none, none⟩
        (handleSubmit ⟨false, 4, ⟨1, 1000, 0, 15, 90, 30⟩, 0, 0, none, none⟩
          ⟨"", true, true, "w", "", 1000, 0, 0, 0, "", 0, 0, 0, ⟨0, 0, 0⟩, false, 0⟩
          [("1", ⟨"1",
            "0000000000000000000000000000000000000000000000000000000000000000",
            "", "", [], "20000000", "207fffff", "60000000", true, false⟩)]
          [] "w" "1" "00000000" "60000000" "00000001" "" 0).session
        [("1", ⟨"1",
          "0000000000000000000000000000000000000000000000000000000000000000",
          "", "", [], "20000000", "207fffff", "60000000", true, false⟩)]
        (handleSubmit ⟨false, 4, ⟨1, 1000, 0, 15, 90, 30⟩, 0, 0, none, none⟩
          ⟨"", true, true, "w", "", 1000, 0, 0, 0, "", 0, 0, 0, ⟨0, 0, 0⟩, false, 0⟩
          [("1", ⟨"1",
            "0000000000000000000000000000000000000000000000000000000000000000",
            "", "", [], "20000000", "207fffff", "60000000", true, false⟩)]
          [] "w" "1" "00000000" "60000000" "00000001" "" 0).dups
        "w" "1" "00000000" "60000000" "00000001" "" 7).reply = ⟨false, some 22⟩ ∧
     (handleSubmit ⟨false, 4, ⟨1, 1000, 0, 15, 90, 30⟩, 0, 0, none, none⟩
        (handleSubmit ⟨false, 4, ⟨1, 1000, 0, 15, 90, 30⟩, 0, 0, none, none⟩
          ⟨"", true, true, "w", "", 1000, 0, 0, 0, "", 0, 0, 0, ⟨0, 0, 0⟩, false, 0⟩
          [("1", ⟨"1",
            "0000000000000000000000000000000000000000000000000000000000000000",
            "", "", [], "20000000", "207fffff", "60000000", true, false⟩)]
          [] "w" "1" "00000000" "60000000" "00000001" "" 0).session
        [("1", ⟨"1",
          "0000000000000000000000000000000000000000000000000000000000000000",
          "", "", [], "20000000", "207fffff", "60000000", true, false⟩)]
        (handleSubmit ⟨false, 4, ⟨1, 1000, 0, 15, 90, 30⟩, 0, 0, none, none⟩
          ⟨"", true, true, "w", "", 1000, 0, 0, 0, "", 0, 0, 0, ⟨0, 0, 0⟩, false, 0⟩
          [("1", ⟨"1",
            "0000000000000000000000000000000000000000000000000000000000000000",
            "", "", [], "20000000", "207fffff", "60000000", true, false⟩)]
          [] "w" "1" "00000000" "60000000" "00000001" "" 0).dups
        "w" "1" "00000000" "60000000" "00000001" "" 7).session.sharesAccepted = 0 + 1 ∧
     (handleSubmit ⟨false, 4, ⟨1, 1000, 0, 15, 90, 30⟩, 0, 0, none, none⟩
        (handleSubmit ⟨false, 4, ⟨1, 1000, 0, 15, 90, 30⟩, 0, 0, none, none⟩
          ⟨"", true, true, "w", "", 1000, 0, 0, 0, "", 0, 0, 0, ⟨0, 0, 0⟩, false, 0⟩
          [("1", ⟨"1",
            "0000000000000000000000000000000000000000000000000000000000000000",
            "", "", [], "20000000", "207fffff", "60000000", true, false⟩)]
          [] "w" "1" "00000000" "60000000" "00000001" "" 0).session
        [("1", ⟨"1",
          "0000000000000000000000000000000000000000000000000000000000000000",
          "", "", [], "20000000", "207fffff", "60000000", true, false⟩)]
        (handleSubmit ⟨false, 4, ⟨1, 1000, 0, 15, 90, 30⟩, 0, 0, none, none⟩
          ⟨"", true, true, "w", "", 1000, 0, 0, 0, "", 0, 0, 0, ⟨0, 0, 0⟩, false, 0⟩
          [("1", ⟨"1",
            "0000000000000000000000000000000000000000000000000000000000000000",
            "", "", [], "20000000", "207fffff", "60000000", true, false⟩)]
          [] "w" "1" "00000000" "60000000" "00000001" "" 0).dups
        "w" "1" "00000000" "60000000" "00000001" "" 7).session.sharesRejected = 0 ∧
     (handleSubmit ⟨false, 4, ⟨1, 1000, 0, 15, 90, 30⟩, 0, 0, none, none⟩
        (handleSubmit ⟨false, 4, ⟨1, 1000, 0, 15, 90, 30⟩, 0, 0, none, none⟩
          ⟨"", true, true, "w", "", 1000, 0, 0, 0, "", 0, 0, 0, ⟨0, 0, 0⟩, false, 0⟩
          [("1", ⟨"1",
            "0000000000000000000000000000000000000000000000000000000000000000",
            "", "", [], "20000000", "207fffff", "60000000", true, false⟩)]
          [] "w" "1" "00000000" "60000000" "00000001" "" 0).session
        [("1", ⟨"1",
          "0000000000000000000000000000000000000000000000000000000000000000",
          "", "", [], "20000000", "207fffff", "60000000", true, false⟩)]
        (handleSubmit ⟨false, 4, ⟨1, 1000, 0, 15, 90, 30⟩, 0, 0, none, none⟩
          ⟨"", true, true, "w", "", 1000, 0, 0, 0, "", 0, 0, 0, ⟨0, 0, 0⟩, false, 0⟩
          [("1", ⟨"1",
            "0000000000000000000000000000000000000000000000000000000000000000",
            "", "", [], "20000000", "207fffff", "60000000", true, false⟩)]
          [] "w" "1" "00000000" "60000000" "00000001" "" 0).dups
        "w" "1" "00000000" "60000000" "00000001" "" 7).rejectedCallback = false) :=
  ⟨rfl,
   c3_duplicate_share
     ⟨false, 4, ⟨1, 1000, 0, 15, 90, 30⟩, 0, 0, none, none⟩
     ⟨"", true, true, "w", "", 1000, 0, 0, 0, "", 0, 0, 0, ⟨0, 0, 0⟩, false, 0⟩
     [("1", ⟨"1",
       "0000000000000000000000000000000000000000000000000000000000000000",
       "", "", [], "20000000", "207fffff", "60000000", true, false⟩)]
     [] "w" "1" "00000000" "60000000" "00000001" "" 0 7 rfl⟩

end GoVault
